import Mathlib

/-!
Verification development for the EUR-Lex HTML structural parser
(`src/quiz_gen/parsers/html/eur_lex_parser.py`).

The HTML input is modelled as a DOM-like node tree (`HNode`): elements carry
a tag name, an `id` attribute (empty string when absent), a class list and
ordered children; text nodes carry the raw string.  The parser's methods are
translated one-by-one into pure Lean functions over this tree; the mutable
instance state (`chunks`, `toc`, `current_hierarchy`, `regulation_title`)
is threaded explicitly through `ParserState`.
-/

/-- DOM-like markup node: a text node, or an element with tag name, id
attribute (empty when absent), class list, and ordered children. -/
inductive HNode where
  | text (s : String)
  | elem (tag : String) (idAttr : String) (classes : List String) (children : List HNode)

namespace HNode

mutual

def decEqNode : (a b : HNode) → Decidable (a = b)
  | .text s, .text t =>
      if h : s = t then .isTrue (by subst h; rfl)
      else .isFalse (by intro hh; injection hh; contradiction)
  | .text _, .elem _ _ _ _ => .isFalse (by intro hh; exact HNode.noConfusion hh)
  | .elem _ _ _ _, .text _ => .isFalse (by intro hh; exact HNode.noConfusion hh)
  | .elem t1 i1 c1 ch1, .elem t2 i2 c2 ch2 =>
      if h1 : t1 = t2 then
        if h2 : i1 = i2 then
          if h3 : c1 = c2 then
            match decEqNodeList ch1 ch2 with
            | .isTrue h4 => .isTrue (by subst h1; subst h2; subst h3; subst h4; rfl)
            | .isFalse h4 => .isFalse (by intro hh; injection hh; contradiction)
          else .isFalse (by intro hh; injection hh; contradiction)
        else .isFalse (by intro hh; injection hh; contradiction)
      else .isFalse (by intro hh; injection hh; contradiction)

def decEqNodeList : (a b : List HNode) → Decidable (a = b)
  | [], [] => .isTrue rfl
  | [], _ :: _ => .isFalse (by intro hh; exact List.noConfusion hh)
  | _ :: _, [] => .isFalse (by intro hh; exact List.noConfusion hh)
  | x :: xs, y :: ys =>
      match decEqNode x y, decEqNodeList xs ys with
      | .isTrue h1, .isTrue h2 => .isTrue (by subst h1; subst h2; rfl)
      | .isFalse h1, _ => .isFalse (by intro hh; injection hh; contradiction)
      | _, .isFalse h2 => .isFalse (by intro hh; injection hh; contradiction)

end

instance : DecidableEq HNode := decEqNode

def nodeTag : HNode → String
  | .text _ => ""
  | .elem t _ _ _ => t

def nodeId : HNode → String
  | .text _ => ""
  | .elem _ i _ _ => i

def nodeClasses : HNode → List String
  | .text _ => []
  | .elem _ _ cs _ => cs

def childNodes : HNode → List HNode
  | .text _ => []
  | .elem _ _ _ cs => cs

def isElem : HNode → Bool
  | .text _ => false
  | .elem _ _ _ _ => true

mutual

/-- All text-node strings in document order (BeautifulSoup `_all_strings`). -/
def textStrings : HNode → List String
  | .text s => [s]
  | .elem _ _ _ cs => textStringsList cs

/-- `textStrings` over a child list. -/
def textStringsList : List HNode → List String
  | [] => []
  | c :: cs => textStrings c ++ textStringsList cs

end

mutual

/-- All element descendants of a node in document (preorder) order,
excluding the node itself: the traversal behind `find_all`. -/
def descElems : HNode → List HNode
  | .text _ => []
  | .elem _ _ _ cs => descElemsList cs

/-- `descElems` over a child list: each element child followed by its own
element descendants. -/
def descElemsList : List HNode → List HNode
  | [] => []
  | c :: cs => (if c.isElem then [c] else []) ++ descElems c ++ descElemsList cs

end

/-- `soup.find_all(pred)`: all element descendants satisfying `pred`,
in document order. -/
def findAll (p : HNode → Bool) (n : HNode) : List HNode :=
  (descElems n).filter p

/-- `soup.find(pred)`: first element descendant satisfying `pred`. -/
def findFirst (p : HNode → Bool) (n : HNode) : Option HNode :=
  (findAll p n).head?

/-- Element children of a node (text nodes dropped). -/
def childElems (n : HNode) : List HNode :=
  n.childNodes.filter HNode.isElem

/-- `find_all(pred, recursive=False)`: matching direct element children. -/
def findAllTop (p : HNode → Bool) (n : HNode) : List HNode :=
  (childElems n).filter p

end HNode

example : HNode.textStrings (.elem "div" "" [] [.text "a", .elem "p" "" [] [.text "b"]]) = ["a", "b"] := by decide

example : (HNode.findAll (fun n => n.nodeTag = "p") (.elem "div" "" [] [.text "a", .elem "p" "x" [] [.text "b"]])).map HNode.nodeId = ["x"] := by decide

/-! ## Character classes and string helpers (List Char based, kernel friendly) -/

/-- Python `\s` over the ASCII range. -/
def isPySpace (c : Char) : Bool :=
  c == ' ' || c == '\t' || c == '\n' || c == '\r' || c == '\x0b' || c == '\x0c'

def isLowerAl (c : Char) : Bool := 'a' ≤ c && c ≤ 'z'

def isUpperAl (c : Char) : Bool := 'A' ≤ c && c ≤ 'Z'

def isAl (c : Char) : Bool := isLowerAl c || isUpperAl c

def isDigitCh (c : Char) : Bool := '0' ≤ c && c ≤ '9'

/-- `[IVXLCDM]` under `re.I`. -/
def isRomanCh (c : Char) : Bool :=
  ['I', 'V', 'X', 'L', 'C', 'D', 'M', 'i', 'v', 'x', 'l', 'c', 'd', 'm'].contains c

/-- Does the first list occur at the head of the second? -/
def listStarts : List Char → List Char → Bool
  | [], _ => true
  | _ :: _, [] => false
  | p :: ps, c :: cs => p == c && listStarts ps cs

def strStarts (pat s : String) : Bool := listStarts pat.data s.data

/-- Case-insensitive `listStarts` (ASCII, used for `re.I` literals). -/
def ciStarts : List Char → List Char → Bool
  | [], _ => true
  | _ :: _, [] => false
  | p :: ps, c :: cs => p.toLower == c.toLower && ciStarts ps cs

/-- Does `pat` occur contiguously anywhere in `s` (Python `in`)? -/
def strContainsL (pat : List Char) : List Char → Bool
  | [] => listStarts pat []
  | c :: cs => listStarts pat (c :: cs) || strContainsL pat cs

def strContains (pat s : String) : Bool := strContainsL pat.data s.data

/-- Fuelled scanner behind `replaceAllL` (fuel bounds the number of steps so
the recursion is structural and kernel-reducible; `fuel = s.length` always
suffices since every step consumes at least one character). -/
def replaceAllAux (pat repl : List Char) : Nat → List Char → List Char
  | 0, s => s
  | _ + 1, [] => []
  | fuel + 1, c :: cs =>
    if !pat.isEmpty && listStarts pat (c :: cs) then
      repl ++ replaceAllAux pat repl fuel ((c :: cs).drop pat.length)
    else
      c :: replaceAllAux pat repl fuel cs

/-- Python `str.replace`: replace all non-overlapping leftmost occurrences. -/
def replaceAllL (pat repl : List Char) (s : List Char) : List Char :=
  replaceAllAux pat repl s.length s

def replaceAllStr (pat repl s : String) : String :=
  (replaceAllL pat.data repl.data s.data).asString

def upperStr (s : String) : String := (s.data.map Char.toUpper).asString

/-- Collapse every maximal whitespace run to a single space
(`re.sub(r'\s+', ' ', text)`). -/
def collapseWs : List Char → List Char
  | [] => []
  | c :: cs =>
    if isPySpace c then
      match collapseWs cs with
      | ' ' :: r => ' ' :: r
      | r => ' ' :: r
    else c :: collapseWs cs

/-- Python `str.strip()` over the ASCII whitespace range. -/
def stripChars (s : List Char) : List Char :=
  ((s.dropWhile isPySpace).reverse.dropWhile isPySpace).reverse

/-- `EURLexParser._clean_text`: collapse whitespace runs and strip. -/
def clean_text (s : String) : String :=
  (stripChars (collapseWs s.data)).asString

/-- `sep.join(parts)`. -/
def sepJoin (sep : String) : List String → String
  | [] => ""
  | [p] => p
  | p :: ps => p ++ sep ++ sepJoin sep ps

/-- `sep.join` over raw character lists. -/
def sepJoinL (sep : List Char) : List (List Char) → List Char
  | [] => []
  | [x] => x
  | x :: xs => x ++ sep ++ sepJoinL sep xs

/-- Python `str.splitlines` over the ASCII line boundaries. -/
def splitLinesAux (cur : List Char) : List Char → List (List Char)
  | [] => [cur.reverse]
  | '\r' :: '\n' :: rest => cur.reverse :: splitLinesAux [] rest
  | c :: rest =>
    if c == '\n' || c == '\r' || c == '\x0b' || c == '\x0c' then
      cur.reverse :: splitLinesAux [] rest
    else splitLinesAux (c :: cur) rest

def splitLinesChars (s : List Char) : List (List Char) := splitLinesAux [] s

/-- `element.get_text()`: concatenation of all text-node strings. -/
def getTextOf (n : HNode) : String := String.join (HNode.textStrings n)

/-- `element.get_text(separator='\n')`. -/
def getTextSepNl (n : HNode) : String := sepJoin "\n" (HNode.textStrings n)

example : clean_text "  a \n\t b  " = "a b" := by decide
example : replaceAllStr "anx_" "" "anx_1.app_2" = "1.app_2" := by decide
example : strContains ".app_" "anx_1.app_2" = true := by decide

/-! ## Identifier matchers (§4.2): shallow embeddings of the regexes.
BeautifulSoup matches an `id=re.compile(p)` filter with `p.search(value)`;
all the id patterns are `^`-anchored, so they reduce to prefix tests. -/

/-- `^<pre>\d+` searched against an id value. -/
def idStartsDigits (pre : String) (i : String) : Bool :=
  listStarts pre.data i.data &&
    (match i.data.drop pre.data.length with
     | c :: _ => isDigitCh c
     | [] => false)

/-- `^cpt_[^.]+\.sct_` searched against an id value: since `[^.]+` cannot
cross a dot, the dot of `\.sct_` must be the first dot after the prefix. -/
def matchCptSct (i : String) : Bool :=
  listStarts "cpt_".data i.data &&
    (let r := i.data.drop 4
     let a := r.takeWhile (fun c => c != '.')
     !a.isEmpty && listStarts ".sct_".data (r.drop a.length))

/-- `^\d+\.\d+` searched against an id value (article content divs). -/
def matchNumDotNum (i : String) : Bool :=
  let d1 := i.data.takeWhile isDigitCh
  !d1.isEmpty &&
    (match i.data.drop d1.length with
     | '.' :: c :: _ => isDigitCh c
     | _ => false)

/-- `re.match(r'<kw>\s+([IVXLCDM]+|\d+)', t, re.I)`: the captured number
(roman-run preferred, else digit-run), stored verbatim. -/
def headingNum (kw : String) (t : String) : Option String :=
  if ciStarts kw.data t.data then
    let r := t.data.drop kw.data.length
    let ws := r.takeWhile isPySpace
    if ws.isEmpty then none
    else
      let r2 := r.drop ws.length
      let rom := r2.takeWhile isRomanCh
      if !rom.isEmpty then some rom.asString
      else
        let ds := r2.takeWhile isDigitCh
        if !ds.isEmpty then some ds.asString else none
  else none

/-- `re.match(r'^Section\s+([A-Z]|\d+)', t, re.I)` (annex part detection):
a single letter is captured in preference to a digit run. -/
def matchSectionLetter (t : String) : Option String :=
  if ciStarts "Section".data t.data then
    let r := t.data.drop 7
    let ws := r.takeWhile isPySpace
    if ws.isEmpty then none
    else
      match r.drop ws.length with
      | c :: _ =>
        if isAl c then some ⟨[c]⟩
        else
          let ds := (r.drop ws.length).takeWhile isDigitCh
          if !ds.isEmpty then some ds.asString else none
      | [] => none
  else none

/-- `re.search(r'Article\s+(\d+[a-z]*)', t, re.I)`: leftmost match anywhere
in the string; captures digits plus an optional letter run. -/
def searchArticleNumL : List Char → Option String
  | [] => none
  | c :: rest =>
    let attempt :=
      if ciStarts "Article".data (c :: rest) then
        let r := (c :: rest).drop 7
        let ws := r.takeWhile isPySpace
        if ws.isEmpty then none
        else
          let r2 := r.drop ws.length
          let ds := r2.takeWhile isDigitCh
          if ds.isEmpty then none
          else some (ds ++ (r2.drop ds.length).takeWhile isAl).asString
      else none
    match attempt with
    | some v => some v
    | none => searchArticleNumL rest

def searchArticleNum (t : String) : Option String := searchArticleNumL t.data

/-- `re.match(r'^\((\d+)\)$', t)` (recital numbers): full match. -/
def recitalNumOf (t : String) : Option String :=
  match t.data with
  | '(' :: r =>
    let ds := r.takeWhile isDigitCh
    if ds.isEmpty then none
    else
      match r.drop ds.length with
      | [')'] => some ds.asString
      | _ => none
  | _ => none

/-- `re.match(r'^anx_(\d+)\.app_(\d+)', i)` (appendix ids, case sensitive). -/
def matchAppId (i : String) : Option (String × String) :=
  if listStarts "anx_".data i.data then
    let r := i.data.drop 4
    let d1 := r.takeWhile isDigitCh
    if d1.isEmpty then none
    else
      let r2 := r.drop d1.length
      if listStarts ".app_".data r2 then
        let d2 := (r2.drop 5).takeWhile isDigitCh
        if d2.isEmpty then none else some (d1.asString, d2.asString)
      else none
  else none

/-- `re.match(r'^anx_([IVXLCDM]+|\d+[A-Z]?)', i, re.I)` (annex ids; the
whole pattern, prefix included, is case-insensitive). -/
def matchAnxId (i : String) : Option String :=
  if ciStarts "anx_".data i.data then
    let r := i.data.drop 4
    let rom := r.takeWhile isRomanCh
    if !rom.isEmpty then some rom.asString
    else
      let ds := r.takeWhile isDigitCh
      if ds.isEmpty then none
      else
        match r.drop ds.length with
        | c :: _ => if isAl c then some (ds ++ [c]).asString else some ds.asString
        | [] => some ds.asString
  else none

example : headingNum "CHAPTER" "CHAPTER I" = some "I" := by decide
example : headingNum "CHAPTER" "Chapter 12 overview" = some "12" := by decide
example : headingNum "SECTION" "SECTION II" = some "II" := by decide
example : searchArticleNum "Article 14a" = some "14a" := by decide
example : searchArticleNum "see Article 4 - AI literacy" = some "4" := by decide
example : recitalNumOf "(15)" = some "15" := by decide
example : recitalNumOf "14" = none := by decide
example : recitalNumOf "(15) " = none := by decide
example : matchAppId "anx_1.app_2" = some ("1", "2") := by decide
example : matchAnxId "anx_IX" = some "IX" := by decide
example : matchAnxId "anx_12B" = some "12B" := by decide
example : matchSectionLetter "Section AB" = some "A" := by decide
example : matchCptSct "cpt_I.sct_2" = true := by decide
example : matchCptSct "cpt_.sct_2" = false := by decide
example : matchNumDotNum "1.2" = true := by decide
example : idStartsDigits "rct_" "rct_14" = true := by decide
example : idStartsDigits "rct_" "rct_" = false := by decide

/-! ## Text repair passes.
`_clean_combined_text` and the annex-specific substitutions, embedded as
fuelled left-to-right scanners (Python `re.sub` resumes scanning after the
end of each replaced match, which these scanners reproduce; the fuel is the
input length, enough because each step consumes at least one character). -/

/-- `re.sub(r'\(([a-z]+|[ivx]+)\)\n\n', r'(\1) ', text)`: since `[ivx]` is a
subset of `[a-z]`, the group is the maximal lowercase run after `(`. -/
def fixListMarkersAux : Nat → List Char → List Char
  | 0, s => s
  | _ + 1, [] => []
  | fuel + 1, '(' :: rest =>
    let run := rest.takeWhile isLowerAl
    let r2 := rest.drop run.length
    if !run.isEmpty && listStarts [')', '\n', '\n'] r2 then
      '(' :: (run ++ [')', ' ']) ++ fixListMarkersAux fuel (r2.drop 3)
    else '(' :: fixListMarkersAux fuel rest
  | fuel + 1, c :: rest => c :: fixListMarkersAux fuel rest

def fixListMarkers (s : List Char) : List Char := fixListMarkersAux s.length s

/-- `re.sub(r'\n\n(\d+\.)\n\n', r'\n\n\1 ', text)`: a numbered marker is
re-joined only when itself preceded by a blank-line separator. -/
def fixNumMarkersAux : Nat → List Char → List Char
  | 0, s => s
  | _ + 1, [] => []
  | fuel + 1, '\n' :: '\n' :: rest =>
    let ds := rest.takeWhile isDigitCh
    let r2 := rest.drop ds.length
    if !ds.isEmpty && listStarts ['.', '\n', '\n'] r2 then
      '\n' :: '\n' :: (ds ++ ['.', ' ']) ++ fixNumMarkersAux fuel (r2.drop 3)
    else '\n' :: fixNumMarkersAux fuel ('\n' :: rest)
  | fuel + 1, c :: rest => c :: fixNumMarkersAux fuel rest

def fixNumMarkers (s : List Char) : List Char := fixNumMarkersAux s.length s

/-- `EURLexParser._clean_combined_text`: the list-marker repair followed by
the numbered-marker repair. -/
def clean_combined_text (t : String) : String :=
  (fixNumMarkers (fixListMarkers t.data)).asString

/-- `re.sub(r'\n\(([a-zA-Z]+|[ivxlcdmIVXLCDM]+|\d+)\)\n', r'\n(\1) ', s)`
(annex whole-content repair): the roman alternative is a subset of the
letter one, so the group is a letter run, else a digit run. -/
def fixAnnexMarkersAux : Nat → List Char → List Char
  | 0, s => s
  | _ + 1, [] => []
  | fuel + 1, '\n' :: '(' :: rest =>
    let runA := rest.takeWhile isAl
    let run := if runA.isEmpty then rest.takeWhile isDigitCh else runA
    let r2 := rest.drop run.length
    if !run.isEmpty && listStarts [')', '\n'] r2 then
      '\n' :: '(' :: (run ++ [')', ' ']) ++ fixAnnexMarkersAux fuel (r2.drop 2)
    else '\n' :: fixAnnexMarkersAux fuel ('(' :: rest)
  | fuel + 1, c :: rest => c :: fixAnnexMarkersAux fuel rest

def fixAnnexMarkers (s : List Char) : List Char := fixAnnexMarkersAux s.length s

/-- `re.sub(r'\n—\n', '\n— ', s)` (annex dash repair). -/
def fixDashLines : List Char → List Char
  | '\n' :: '—' :: '\n' :: rest => '\n' :: '—' :: ' ' :: fixDashLines rest
  | c :: rest => c :: fixDashLines rest
  | [] => []

/-- `re.sub(r'm\s*\n\s*3', 'm3', s)` (cubic-metre unit split repair): an
`m`, then a whitespace run containing at least one newline, then `3`. -/
def fixUnitSplitAux : Nat → List Char → List Char
  | 0, s => s
  | _ + 1, [] => []
  | fuel + 1, 'm' :: rest =>
    let ws := rest.takeWhile isPySpace
    let r2 := rest.drop ws.length
    if ws.contains '\n' && listStarts ['3'] r2 then
      'm' :: '3' :: fixUnitSplitAux fuel (r2.drop 1)
    else 'm' :: fixUnitSplitAux fuel rest
  | fuel + 1, c :: rest => c :: fixUnitSplitAux fuel rest

def fixUnitSplit (s : List Char) : List Char := fixUnitSplitAux s.length s

example : clean_combined_text "(a)\n\nterrorism," = "(a) terrorism," := by decide
example : clean_combined_text "intro\n\n1.\n\ntext" = "intro\n\n1. text" := by decide
example : clean_combined_text "1.\n\ntext" = "1.\n\ntext" := by decide
example : (fixAnnexMarkers "x\n(a)\ny".data).asString = "x\n(a) y" := by decide
example : (fixDashLines "a\n—\nb".data).asString = "a\n— b" := by decide
example : (fixUnitSplit "10 m\n3 of".data).asString = "10 m3 of" := by decide

/-! ## Data model (§3): SectionType, chunks, TOC nodes, serialization. -/

/-- `SectionType` enum from the source. -/
inductive SectionType where
  | title
  | preamble
  | enacting_terms
  | concluding_formulas
  | annex
  | appendix
  | citation
  | recital
  | chapter
  | section
  | article
deriving DecidableEq, Repr

/-- The string value of each enum member. -/
def SectionType.value : SectionType → String
  | .title => "title"
  | .preamble => "preamble"
  | .enacting_terms => "enacting_terms"
  | .concluding_formulas => "concluding_formulas"
  | .annex => "annex"
  | .appendix => "appendix"
  | .citation => "citation"
  | .recital => "recital"
  | .chapter => "chapter"
  | .section => "section"
  | .article => "article"

/-- A metadata value: the code stores strings and lists of strings. -/
inductive MetaVal where
  | s (v : String)
  | list (vs : List String)
deriving DecidableEq, Repr

/-- Insertion-ordered metadata mapping. -/
abbrev Metadata := List (String × MetaVal)

def lookupMeta (k : String) : Metadata → Option MetaVal
  | [] => none
  | (k', v) :: rest => if k' == k then some v else lookupMeta k rest

/-- `RegulationChunk` dataclass. -/
structure RegulationChunk where
  section_type : SectionType
  number : Option String
  title : Option String
  content : String
  hierarchy_path : List String
  metadata : Metadata
deriving DecidableEq, Repr

/-- The flat mapping produced by `RegulationChunk.to_dict` (the enum is
replaced by its string value; every other field is kept as is). -/
structure ChunkDict where
  section_type : String
  number : Option String
  title : Option String
  content : String
  hierarchy_path : List String
  metadata : Metadata
deriving DecidableEq, Repr

def RegulationChunk.to_dict (c : RegulationChunk) : ChunkDict :=
  { section_type := c.section_type.value
    number := c.number
    title := c.title
    content := c.content
    hierarchy_path := c.hierarchy_path
    metadata := c.metadata }

/-- A TOC node: the nested dicts accumulated in `self.toc['sections']`.
`number` and `children` are absent in some of the dicts the code builds,
modelled with `Option`. -/
inductive TocNode where
  | node (ty : String) (number : Option String) (title : String)
         (children : Option (List TocNode))

def TocNode.ty : TocNode → String
  | .node t _ _ _ => t

def TocNode.numberOf : TocNode → Option String
  | .node _ n _ _ => n

def TocNode.titleOf : TocNode → String
  | .node _ _ t _ => t

def TocNode.childrenOf : TocNode → Option (List TocNode)
  | .node _ _ _ c => c

/-- JSON values (objects keep field order, as Python dicts do). -/
inductive Json where
  | null
  | str (s : String)
  | arr (elems : List Json)
  | obj (fields : List (String × Json))

def optStrToJson : Option String → Json
  | none => .null
  | some s => .str s

def metaValToJson : MetaVal → Json
  | .s v => .str v
  | .list vs => .arr (vs.map .str)

def metadataToJson (m : Metadata) : Json :=
  .obj (m.map (fun kv => (kv.1, metaValToJson kv.2)))

/-- JSON encoding of a chunk dict (the object `json.dump` receives). -/
def chunkDictToJson (d : ChunkDict) : Json :=
  .obj [("section_type", .str d.section_type),
        ("number", optStrToJson d.number),
        ("title", optStrToJson d.title),
        ("content", .str d.content),
        ("hierarchy_path", .arr (d.hierarchy_path.map .str)),
        ("metadata", metadataToJson d.metadata)]

def jsonToOptStr : Json → Option (Option String)
  | .null => some none
  | .str s => some (some s)
  | _ => none

def jsonToStrList : List Json → Option (List String)
  | [] => some []
  | .str s :: rest =>
    match jsonToStrList rest with
    | some l => some (s :: l)
    | none => none
  | _ => none

def jsonToMetaVal : Json → Option MetaVal
  | .str v => some (.s v)
  | .arr xs => (jsonToStrList xs).map .list
  | _ => none

def jsonToMetadata : List (String × Json) → Option Metadata
  | [] => some []
  | (k, v) :: rest =>
    match jsonToMetaVal v, jsonToMetadata rest with
    | some mv, some m => some ((k, mv) :: m)
    | _, _ => none

/-- JSON decoding of a chunk dict: the inverse reading of the six keys. -/
def jsonToChunkDict : Json → Option ChunkDict
  | .obj [("section_type", .str st), ("number", n), ("title", t),
          ("content", .str c), ("hierarchy_path", .arr hp),
          ("metadata", .obj m)] =>
    match jsonToOptStr n, jsonToOptStr t, jsonToStrList hp, jsonToMetadata m with
    | some n', some t', some hp', some m' =>
      some { section_type := st, number := n', title := t', content := c,
             hierarchy_path := hp', metadata := m' }
    | _, _, _, _ => none
  | _ => none

open HNode

/-! ## Element predicates used by the drivers. -/

def pWithClass (c : String) (n : HNode) : Bool :=
  n.nodeTag == "p" && n.nodeClasses.contains c

def divWithClass (c : String) (n : HNode) : Bool :=
  n.nodeTag == "div" && n.nodeClasses.contains c

def articleDivPred (n : HNode) : Bool :=
  divWithClass "eli-subdivision" n && idStartsDigits "art_" n.nodeId

/-! ## Title phase (`_parse_title`). -/

def titleDivOf (doc : HNode) : Option HNode :=
  findFirst (divWithClass "eli-main-title") doc

/-- Main title, all heading paragraphs (cleaned, in order) and the container
id, when a title chunk is produced. -/
def titleData (doc : HNode) : Option (String × List String × String) :=
  match titleDivOf doc with
  | none => none
  | some d =>
    let parts := (findAll (pWithClass "oj-doc-ti") d).map (fun p => clean_text (getTextOf p))
    match parts with
    | [] => none
    | mainTitle :: _ => some (mainTitle, parts, d.nodeId)

def parse_title_chunks (doc : HNode) : List RegulationChunk :=
  match titleData doc with
  | none => []
  | some (mainTitle, parts, tid) =>
    [{ section_type := .title, number := none, title := some mainTitle,
       content := sepJoin "\n\n" parts, hierarchy_path := [mainTitle],
       metadata := [("id", .s tid)] }]

/-- `self.regulation_title` after the title phase (set only when a title
chunk is produced, otherwise left as it was). -/
def regAfterTitle (doc : HNode) (r : String) : String :=
  match titleData doc with
  | some (t, _, _) => t
  | none => r

/-- `[self.regulation_title] + tail if self.regulation_title else tail`:
the hierarchy prefix used by every driver. -/
def hierTail (r : String) (tail : List String) : List String :=
  if r != "" then r :: tail else tail

/-! ## Preamble phase (`_parse_preamble`). -/

def preambleDivOf (doc : HNode) : Option HNode :=
  findFirst (fun n => divWithClass "eli-subdivision" n && idStartsDigits "pbl_" n.nodeId) doc

/-- Body paragraphs before the first child whose id starts with `cit_`. -/
def preambleBodyAux : List HNode → List String
  | [] => []
  | c :: cs =>
    if c.isElem && strStarts "cit_" c.nodeId then []
    else
      (if pWithClass "oj-normal" c && clean_text (getTextOf c) != "" then
        [clean_text (getTextOf c)]
       else []) ++ preambleBodyAux cs

def preamble_chunks (doc : HNode) (r : String) : List RegulationChunk :=
  match preambleDivOf doc with
  | none => []
  | some pd =>
    let parts := preambleBodyAux pd.childNodes
    if parts.isEmpty then []
    else
      [{ section_type := .preamble, number := none, title := some "Preamble",
         content := sepJoin "\n\n" parts,
         hierarchy_path := hierTail r ["Preamble"],
         metadata := [("id", .s pd.nodeId)] }]

def citationDivs (doc : HNode) : List HNode :=
  findAll (fun n => divWithClass "eli-subdivision" n && idStartsDigits "cit_" n.nodeId) doc

/-- (text, id) of every citation element whose first `oj-normal` paragraph
cleans to non-empty text. -/
def citationPairs (doc : HNode) : List (String × String) :=
  (citationDivs doc).filterMap (fun cit =>
    match findFirst (pWithClass "oj-normal") cit with
    | none => none
    | some para =>
      let t := clean_text (getTextOf para)
      if t != "" then some (t, cit.nodeId) else none)

def hasCitationChunk (doc : HNode) : Bool :=
  !(citationDivs doc).isEmpty && !(citationPairs doc).isEmpty

def citation_chunks (doc : HNode) (r : String) : List RegulationChunk :=
  if hasCitationChunk doc then
    [{ section_type := .citation, number := none, title := some "Citation",
       content := sepJoin "\n\n" ((citationPairs doc).map Prod.fst),
       hierarchy_path := hierTail r ["Preamble", "Citation"],
       metadata :=
         [("id", .s (match (citationPairs doc).map Prod.snd with
                     | i :: _ => i
                     | [] => "cit_1")),
          ("citation_ids", .list ((citationPairs doc).map Prod.snd))] }]
  else []

def recitalDivs (doc : HNode) : List HNode :=
  findAll (fun n => divWithClass "eli-subdivision" n && idStartsDigits "rct_" n.nodeId) doc

/-- Rows of the first table of a recital element. -/
def recitalRows (rct : HNode) : List HNode :=
  match findFirst (fun n => n.nodeTag == "table") rct with
  | none => []
  | some t => findAll (fun n => n.nodeTag == "tr") t

/-- (number, content) of a two-cell row whose first cell matches `^\((\d+)\)$`. -/
def recitalRowData (row : HNode) : Option (String × String) :=
  match findAll (fun n => n.nodeTag == "td") row with
  | [c0, c1] =>
    match recitalNumOf (clean_text (getTextOf c0)) with
    | some num => some (num, clean_text (getTextOf c1))
    | none => none
  | _ => none

def recital_chunks_of (r : String) (rct : HNode) : List RegulationChunk :=
  (recitalRows rct).filterMap (fun row =>
    (recitalRowData row).map (fun nc =>
      { section_type := .recital, number := some nc.1,
        title := some ("Recital " ++ nc.1), content := nc.2,
        hierarchy_path := hierTail r ["Preamble", "Recital " ++ nc.1],
        metadata := [("id", .s rct.nodeId)] }))

def recital_toc_of (rct : HNode) : List TocNode :=
  (recitalRows rct).filterMap (fun row =>
    (recitalRowData row).map (fun nc =>
      .node "recital" (some nc.1) ("Recital " ++ nc.1) none))

def parse_preamble_chunks (doc : HNode) (r : String) : List RegulationChunk :=
  preamble_chunks doc r ++ citation_chunks doc r ++
    (recitalDivs doc).flatMap (recital_chunks_of r)

/-- The `preamble` TOC section (appended unconditionally). -/
def preambleSectionOf (doc : HNode) : TocNode :=
  .node "preamble" none "Preamble"
    (some ((if hasCitationChunk doc then [TocNode.node "citation" none "Citation" none] else [])
      ++ (recitalDivs doc).flatMap recital_toc_of))

/-! ## Enacting terms phase (`_parse_enacting_terms` / `_parse_article`). -/

/-- `_parse_article`: the produced chunk and TOC leaf, or `none` when the
heading paragraph is missing or the `Article N` pattern does not match. -/
def parse_article (hier : List String) (art : HNode) : Option (RegulationChunk × TocNode) :=
  match findFirst (pWithClass "oj-ti-art") art with
  | none => none
  | some artP =>
    match searchArticleNum (clean_text (getTextOf artP)) with
    | none => none
    | some artNum =>
      let subtitle :=
        match findFirst (pWithClass "oj-sti-art") art with
        | some p => clean_text (getTextOf p)
        | none => ""
      let fullTitle := "Article " ++ artNum ++ (if subtitle != "" then " - " ++ subtitle else "")
      let m1 := (findAll (fun n => n.nodeTag == "div" && matchNumDotNum n.nodeId) art).flatMap
        (fun cd => (findAll (pWithClass "oj-normal") cd).filterMap (fun p =>
          let t := clean_text (getTextOf p)
          if t != "" then some t else none))
      let m2 := (findAllTop (pWithClass "oj-normal") art).filterMap (fun p =>
        let t := clean_text (getTextOf p)
        if t != "" then some t else none)
      let m3 := (findAll (fun n => n.nodeTag == "table") art).flatMap (fun tb =>
        (findAll (fun n => n.nodeTag == "tr") tb).filterMap (fun row =>
          match findAll (fun n => n.nodeTag == "td") row with
          | [c0, c1] =>
            let marker := clean_text (getTextOf c0)
            let t := clean_text (getTextOf c1)
            if t != "" then some (marker ++ " " ++ t) else none
          | _ => none))
      let fullContent := clean_combined_text (sepJoin "\n\n" (m1 ++ m2 ++ m3))
      some ({ section_type := .article, number := some artNum, title := some fullTitle,
              content := if fullContent != "" then fullContent else subtitle,
              hierarchy_path := hier ++ [fullTitle],
              metadata := [("id", .s art.nodeId), ("subtitle", .s subtitle)] },
            .node "article" (some artNum) fullTitle none)

/-- Chapter/section subtitle lookup: `oj-ti-section-2` anywhere below the
container, falling back to a search inside an `eli-title` child container. -/
def containerSubtitle (d : HNode) : String :=
  match findFirst (pWithClass "oj-ti-section-2") d with
  | some p => clean_text (getTextOf p)
  | none =>
    match findFirst (divWithClass "eli-title") d with
    | some td =>
      match findFirst (pWithClass "oj-ti-section-2") td with
      | some p => clean_text (getTextOf p)
      | none => ""
    | none => ""

/-- One section container inside a chapter: its article chunks and TOC node. -/
def parse_section_div (chHier : List String) (sd : HNode) :
    Option (List RegulationChunk × TocNode) :=
  match findFirst (pWithClass "oj-ti-section-1") sd with
  | none => none
  | some tp =>
    match headingNum "SECTION" (clean_text (getTextOf tp)) with
    | none => none
    | some num =>
      let sub := containerSubtitle sd
      let ft := "SECTION " ++ num ++ (if sub != "" then " - " ++ sub else "")
      let hier := chHier ++ [ft]
      let arts := (findAll articleDivPred sd).filterMap (parse_article hier)
      some (arts.map Prod.fst, .node "section" (some num) ft (some (arts.map Prod.snd)))

/-- One chapter container: its article chunks, TOC node, and the hierarchy
stack value it leaves behind. -/
def parse_chapter (r : String) (cd : HNode) :
    Option (List RegulationChunk × TocNode × List String) :=
  match findFirst (pWithClass "oj-ti-section-1") cd with
  | none => none
  | some cp =>
    match headingNum "CHAPTER" (clean_text (getTextOf cp)) with
    | none => none
    | some num =>
      let sub := containerSubtitle cd
      let ft := "CHAPTER " ++ num ++ (if sub != "" then " - " ++ sub else "")
      let hier := hierTail r [ft]
      let sects := findAllTop (fun n => n.nodeTag == "div" && matchCptSct n.nodeId) cd
      if !sects.isEmpty then
        let results := sects.filterMap (parse_section_div hier)
        some (results.flatMap Prod.fst,
              .node "chapter" (some num) ft (some (results.map Prod.snd)), hier)
      else
        let arts := (findAll articleDivPred cd).filterMap (parse_article hier)
        some (arts.map Prod.fst,
              .node "chapter" (some num) ft (some (arts.map Prod.snd)), hier)

def chapterDivs (doc : HNode) : List HNode :=
  findAll (fun n => n.nodeTag == "div" && strStarts "cpt_" n.nodeId) doc

/-- `_parse_enacting_terms`: article chunks and the `enacting_terms` TOC
section (which is appended in every case). -/
def parse_enacting_terms (doc : HNode) (r : String) : List RegulationChunk × TocNode :=
  let chapters := chapterDivs doc
  if chapters.isEmpty then
    let arts0 := findAll articleDivPred doc
    if !arts0.isEmpty then
      let hier := hierTail r ["Enacting Terms"]
      let arts := arts0.filterMap (parse_article hier)
      (arts.map Prod.fst,
       .node "enacting_terms" none "Enacting Terms" (some (arts.map Prod.snd)))
    else
      ([], .node "enacting_terms" none "Enacting Terms" (some []))
  else
    let results := chapters.filterMap (parse_chapter r)
    (results.flatMap Prod.fst,
     .node "enacting_terms" none "Enacting Terms" (some (results.map (fun x => x.2.1))))

/-- The value of `self.current_hierarchy` after the enacting-terms phase:
the stack set by the last successfully parsed chapter, else unchanged. -/
def hierAfterEnacting (doc : HNode) (r : String) (h : List String) : List String :=
  match ((chapterDivs doc).filterMap (parse_chapter r)).getLast? with
  | some x => x.2.2
  | none => h

/-! ## Concluding-formulas phase (`_parse_concluding_formulas`). -/

def parse_concluding (doc : HNode) (r : String) : Option (RegulationChunk × TocNode) :=
  match findFirst (fun n => divWithClass "eli-subdivision" n && idStartsDigits "fnp_" n.nodeId) doc with
  | none => none
  | some cdv =>
    match findFirst (divWithClass "oj-final") cdv with
    | none => none
    | some fd =>
      let paras := (findAll (pWithClass "oj-normal") fd).filterMap (fun p =>
        let t := clean_text (getTextOf p)
        if t != "" then some t else none)
      let sigs := (findAll (divWithClass "oj-signatory") fd).filterMap (fun sg =>
        let sp := (findAll (pWithClass "oj-signatory") sg).map (fun p => clean_text (getTextOf p))
        if !sp.isEmpty then some (sepJoin "\n" sp) else none)
      let full := sepJoin "\n\n" (paras ++ sigs)
      if full != "" then
        some ({ section_type := .concluding_formulas, number := none,
                title := some "Concluding formulas", content := full,
                hierarchy_path := hierTail r ["Concluding formulas"],
                metadata := [("id", .s cdv.nodeId)] },
              .node "concluding_formulas" none "Concluding formulas" none)
      else none

/-! ## Annexes/appendices phase (`_parse_annexes`). -/

def annexDivs (doc : HNode) : List HNode :=
  findAll (fun n => divWithClass "eli-container" n && strStarts "anx_" n.nodeId) doc

/-- `(is_appendix, identifier)` extracted from the annex/appendix id. -/
def annexIdentifier (annexId : String) : Bool × String :=
  if strContains ".app_" annexId then
    match matchAppId annexId with
    | some nm => (true, nm.1 ++ "." ++ nm.2)
    | none => (true, replaceAllStr ".app_" "." (replaceAllStr "anx_" "" annexId))
  else
    match matchAnxId annexId with
    | some g => (false, g)
    | none => (false, replaceAllStr "anx_" "" annexId)

/-- `(title_text, subtitle)` from the `oj-doc-ti` paragraphs of the
container, with the id-based fallback title when there are none. -/
def annexTitleData (a : HNode) (isApp : Bool) (identifier : String) : String × String :=
  match findAll (pWithClass "oj-doc-ti") a with
  | [] => ((if isApp then "APPENDIX " ++ identifier else "ANNEX " ++ identifier), "")
  | t0 :: rest =>
    (clean_text (getTextOf t0),
     if !rest.isEmpty then sepJoin " " (rest.map (fun p => clean_text (getTextOf p))) else "")

/-- `base_title_with_id`: guarantees part titles carry the annex number. -/
def baseTitleWithId (isApp : Bool) (identifier titleText : String) : String :=
  if isApp then "APPENDIX " ++ identifier
  else if identifier != "" && !(strContains (upperStr identifier) (upperStr titleText)) then
    "ANNEX " ++ identifier
  else titleText

/-- A detected part/section heading inside an annex. -/
structure PartInfo where
  element : HNode
  number : String
  title : String
  ptype : String
deriving DecidableEq

/-- `parts_detected`: `oj-ti-grseq-1` paragraphs matching `PART ...` or
`Section ...`. -/
def partsDetected (a : HNode) : List PartInfo :=
  (findAll (pWithClass "oj-ti-grseq-1") a).filterMap (fun ph =>
    let t := clean_text (getTextOf ph)
    match headingNum "PART" t with
    | some num => some ⟨ph, num, t, "part"⟩
    | none =>
      match matchSectionLetter t with
      | some num => some ⟨ph, num, t, "section"⟩
      | none => none)

mutual

/-- The child list of the first node (in preorder, the root included) that
has `target` among its children: the sibling list `find_next_sibling`
walks. -/
def parentChildrenOf (target : HNode) : HNode → Option (List HNode)
  | .text _ => none
  | .elem _ _ _ cs =>
    if cs.any (fun x => x = target) then some cs
    else parentChildrenList target cs

def parentChildrenList (target : HNode) : List HNode → Option (List HNode)
  | [] => none
  | n :: ns =>
    match parentChildrenOf target n with
    | some r => some r
    | none => parentChildrenList target ns

end

/-- Nodes after the first occurrence of `target` in a sibling list. -/
def afterFirstOcc (target : HNode) : List HNode → List HNode
  | [] => []
  | n :: ns => if n = target then ns else afterFirstOcc target ns

/-- The element siblings collected between a part heading and the next
detected heading (or the end of the sibling list). -/
def partContentElems (a : HNode) (p : PartInfo) (next : Option HNode) : List HNode :=
  let sibs :=
    match parentChildrenOf p.element a with
    | some cs => cs
    | none => []
  let after := (afterFirstOcc p.element sibs).filter HNode.isElem
  match next with
  | none => after
  | some s => after.takeWhile (fun e => !(e = s : Bool))

/-- Text parts of the collected elements, with the special-cased table-row
flattening. -/
def partContentParts (elems : List HNode) : List String :=
  elems.flatMap (fun el =>
    let tbls := findAll (fun n => n.nodeTag == "table") el
    if !tbls.isEmpty then
      tbls.flatMap (fun tb =>
        (findAll (fun n => n.nodeTag == "tr") tb).flatMap (fun row =>
          match findAll (fun n => n.nodeTag == "td") row with
          | c0 :: c1 :: _ =>
            let numText := clean_text (getTextOf c0)
            let contentText := clean_text (getTextOf c1)
            if numText != "" && contentText != "" then [numText ++ " " ++ contentText]
            else []
          | [c0] =>
            let t := clean_text (getTextOf c0)
            if t != "" then [t] else []
          | [] => []))
    else
      let t := clean_text (getTextOf el)
      if t != "" then [t] else [])

/-- Pair each detected part with the next detected heading element. -/
def partPairs : List PartInfo → List (PartInfo × Option HNode)
  | [] => []
  | [p] => [(p, none)]
  | p :: q :: rest => (p, some q.element) :: partPairs (q :: rest)

/-- Chunks for an annex whose parts/sections were detected. -/
def annex_part_chunks (r : String) (a : HNode) : List RegulationChunk :=
  let ia := annexIdentifier a.nodeId
  let td := annexTitleData a ia.1 ia.2
  let base := baseTitleWithId ia.1 ia.2 td.1
  let st := if ia.1 then SectionType.appendix else SectionType.annex
  let hierBase := hierTail r [base]
  (partPairs (partsDetected a)).map (fun pq =>
    { section_type := st, number := some (ia.2 ++ "." ++ pq.1.number),
      title := some (base ++ " - " ++ pq.1.title),
      content := sepJoin "\n\n" (partContentParts (partContentElems a pq.1 pq.2)),
      hierarchy_path := hierBase ++ [pq.1.title],
      metadata := [("id", .s a.nodeId), (pq.1.ptype, .s pq.1.number)] })

mutual

/-- `p.decompose()` for every `oj-doc-ti` paragraph: the container with all
such descendants removed. -/
def removeDocTi : HNode → HNode
  | .text s => .text s
  | .elem t i c cs => .elem t i c (removeDocTiList cs)

def removeDocTiList : List HNode → List HNode
  | [] => []
  | n :: ns =>
    (if pWithClass "oj-doc-ti" n then [] else [removeDocTi n]) ++ removeDocTiList ns

end

/-- Whole-annex content: visible text line-by-line, blanks dropped, with the
three annex-specific repairs applied. -/
def annexWholeContent (a : HNode) : String :=
  let raw := getTextSepNl (removeDocTi a)
  let lines := ((splitLinesChars raw.data).map stripChars).filter (fun l => !l.isEmpty)
  (fixUnitSplit (fixDashLines (fixAnnexMarkers (sepJoinL ['\n'] lines)))).asString

/-- Chunks for an annex with no detected parts (zero or one chunk). -/
def annex_whole_chunks (r : String) (a : HNode) : List RegulationChunk :=
  let ia := annexIdentifier a.nodeId
  let td := annexTitleData a ia.1 ia.2
  let fullTitle := td.1 ++ (if td.2 != "" then " - " ++ td.2 else "")
  let st := if ia.1 then SectionType.appendix else SectionType.annex
  let c0 := annexWholeContent a
  let fullContent := if c0 == "" && td.2 != "" then td.2 else c0
  if fullContent != "" || td.2 != "" then
    [{ section_type := st, number := some ia.2, title := some fullTitle,
       content := fullContent,
       hierarchy_path := hierTail r [fullTitle],
       metadata := [("id", .s a.nodeId), ("subtitle", .s td.2)] }]
  else []

def annex_chunks_for (r : String) (a : HNode) : List RegulationChunk :=
  if !(partsDetected a).isEmpty then annex_part_chunks r a
  else annex_whole_chunks r a

/-- TOC entries contributed by one annex/appendix container. -/
def annex_toc_for (a : HNode) : List TocNode :=
  let ia := annexIdentifier a.nodeId
  let td := annexTitleData a ia.1 ia.2
  let ty := if ia.1 then "appendix" else "annex"
  let parts := partsDetected a
  if !parts.isEmpty then
    [.node ty (some ia.2) (baseTitleWithId ia.1 ia.2 td.1)
       (some (parts.map (fun p => TocNode.node p.ptype (some p.number) p.title none)))]
  else
    if (annex_whole_chunks "" a).isEmpty then []
    else [.node ty (some ia.2) (td.1 ++ (if td.2 != "" then " - " ++ td.2 else "")) none]

def parse_annexes_chunks (doc : HNode) (r : String) : List RegulationChunk :=
  (annexDivs doc).flatMap (annex_chunks_for r)

def parse_annexes_toc (doc : HNode) : List TocNode :=
  (annexDivs doc).flatMap annex_toc_for

/-! ## Top-level `parse()` and instance state. -/

/-- All chunks appended by one `parse()` call, given the regulation title in
force after the title phase. -/
def chunksGiven (doc : HNode) (r : String) : List RegulationChunk :=
  parse_title_chunks doc ++ parse_preamble_chunks doc r ++
    (parse_enacting_terms doc r).1 ++
    (match parse_concluding doc r with
     | some ct => [ct.1]
     | none => []) ++
    parse_annexes_chunks doc r

/-- All TOC sections appended by one `parse()` call. -/
def sectionsGiven (doc : HNode) (r : String) : List TocNode :=
  [preambleSectionOf doc, (parse_enacting_terms doc r).2] ++
    (match parse_concluding doc r with
     | some ct => [ct.2]
     | none => []) ++
    parse_annexes_toc doc

/-- Mutable `EURLexParser` instance state. -/
structure ParserState where
  chunks : List RegulationChunk
  tocTitle : String
  tocSections : List TocNode
  currentHierarchy : List String
  regulationTitle : String

/-- State after `__init__`. -/
def initState : ParserState :=
  { chunks := [], tocTitle := "", tocSections := [], currentHierarchy := [],
    regulationTitle := "" }

/-- One `parse()` call on an instance: the five drivers run in order, each
appending to the accumulated chunk list and TOC sections. -/
def parse_run (doc : HNode) (st : ParserState) : ParserState :=
  let r := regAfterTitle doc st.regulationTitle
  { chunks := st.chunks ++ chunksGiven doc r,
    tocTitle := regAfterTitle doc st.tocTitle,
    tocSections := st.tocSections ++ sectionsGiven doc r,
    currentHierarchy := hierAfterEnacting doc r st.currentHierarchy,
    regulationTitle := r }

/-- The chunk list returned by `parse()` on a fresh instance. -/
def parseChunks (doc : HNode) : List RegulationChunk :=
  (parse_run doc initState).chunks

/-- The `toc['sections']` list after `parse()` on a fresh instance. -/
def parseToc (doc : HNode) : List TocNode :=
  (parse_run doc initState).tocSections

/-! Markup constructors used for the concrete scenario documents below. -/

def pEl (cls : String) (txt : String) : HNode := .elem "p" "" [cls] [.text txt]

def tdEl (txt : String) : HNode := .elem "td" "" [] [.text txt]

def trEl (cells : List HNode) : HNode := .elem "tr" "" [] cells

def tableEl (rows : List HNode) : HNode := .elem "table" "" [] rows

/-- Concrete scenario document for the chapter/article claim: one main
title, one chapter without sections, one article with a plain body. -/
def scenarioDoc : HNode :=
  .elem "html" "" []
    [.elem "div" "" ["eli-main-title"] [pEl "oj-doc-ti" "REGULATION (EU) 2024/1689"],
     .elem "div" "cpt_I" []
       [pEl "oj-ti-section-1" "CHAPTER I",
        pEl "oj-ti-section-2" "GENERAL PROVISIONS",
        .elem "div" "art_4" ["eli-subdivision"]
          [pEl "oj-ti-art" "Article 4",
           pEl "oj-sti-art" "AI literacy",
           pEl "oj-normal" "Providers and deployers of AI systems shall take measures."]]]

example :
    (parseChunks scenarioDoc).filter (fun c => c.section_type == SectionType.article) =
      [{ section_type := .article, number := some "4",
         title := some "Article 4 - AI literacy",
         content := "Providers and deployers of AI systems shall take measures.",
         hierarchy_path := ["REGULATION (EU) 2024/1689", "CHAPTER I - GENERAL PROVISIONS",
                            "Article 4 - AI literacy"],
         metadata := [("id", .s "art_4"), ("subtitle", .s "AI literacy")] }] := by
  decide

/-- Document with an annex subdivided into one part. -/
def annexPartDoc : HNode :=
  .elem "html" "" []
    [.elem "div" "anx_I" ["eli-container"]
       [pEl "oj-doc-ti" "ANNEX I",
        pEl "oj-ti-grseq-1" "PART 1",
        pEl "oj-normal" "Scope of the list."]]

example : (parseChunks annexPartDoc).map (fun c => (c.title, c.hierarchy_path.getLast?, c.number)) =
    [(some "ANNEX I - PART 1", some "PART 1", some "I.1")] := by decide

example : (parseChunks annexPartDoc).map (fun c => c.content) = ["Scope of the list."] := by decide

/-- Document with one citation element that has no paragraph. -/
def citNoParaDoc : HNode :=
  .elem "html" "" [] [.elem "div" "cit_1" ["eli-subdivision"] [.text "formal words"]]

example : (parseChunks citNoParaDoc).filter (fun c => c.section_type == SectionType.citation) = [] := by decide
example : (citationDivs citNoParaDoc).length = 1 := by decide

/-- Document with one recital element whose table has two well-formed rows. -/
def doubleRecitalDoc : HNode :=
  .elem "html" "" []
    [.elem "div" "rct_1" ["eli-subdivision"]
       [tableEl [trEl [tdEl "(1)", tdEl "First reason."],
                 trEl [tdEl "(2)", tdEl "Second reason."]]]]

example : ((parseChunks doubleRecitalDoc).filter
    (fun c => c.section_type == SectionType.recital)).map (fun c => c.number) =
    [some "1", some "2"] := by decide

/-- Document with one annex container that has no parts and no content. -/
def emptyAnnexDoc : HNode :=
  .elem "html" "" [] [.elem "div" "anx_1" ["eli-container"] []]

example : (parseChunks emptyAnnexDoc) = [] := by decide
example : (annexDivs emptyAnnexDoc).length = 1 := by decide

/-- Document whose main-title container has no heading paragraph. -/
def emptyTitleDoc : HNode :=
  .elem "html" "" [] [.elem "div" "ttl_1" ["eli-main-title"] [.text "stray text"]]

example : (parseChunks emptyTitleDoc).filter (fun c => c.section_type == SectionType.title) = [] := by decide
example : (titleDivOf emptyTitleDoc).isSome = true := by decide

/-- Document with no recognizable structure at all. -/
def bareDoc : HNode := .elem "html" "" [] [.elem "div" "x" [] [.text "hello"]]

example : (parseToc bareDoc).map TocNode.ty = ["preamble", "enacting_terms"] := by decide
example : parseChunks bareDoc = [] := by decide

/-- Malformed recital "14" beside a well-formed "(15)". -/
def mixedRecitalDoc : HNode :=
  .elem "html" "" []
    [.elem "div" "rct_14" ["eli-subdivision"]
       [tableEl [trEl [tdEl "14", tdEl "Broken reason."]]],
     .elem "div" "rct_15" ["eli-subdivision"]
       [tableEl [trEl [tdEl "(15)", tdEl "Good reason."]]]]

example : ((parseChunks mixedRecitalDoc).filter
    (fun c => c.section_type == SectionType.recital)).map (fun c => (c.number, c.content)) =
    [(some "15", "Good reason.")] := by decide

/-- Two citation elements with text. -/
def twoCitationDoc : HNode :=
  .elem "html" "" []
    [.elem "div" "cit_1" ["eli-subdivision"] [pEl "oj-normal" "Having regard to the Treaty,"],
     .elem "div" "cit_2" ["eli-subdivision"] [pEl "oj-normal" "Having regard to the proposal,"]]

example : ((parseChunks twoCitationDoc).filter
    (fun c => c.section_type == SectionType.citation)).map
      (fun c => (c.content, lookupMeta "citation_ids" c.metadata)) =
    [("Having regard to the Treaty,\n\nHaving regard to the proposal,",
      some (.list ["cit_1", "cit_2"]))] := by decide

/-! ## Support lemmas. -/

theorem regAfterTitle_idem (doc : HNode) (r : String) :
    regAfterTitle doc (regAfterTitle doc r) = regAfterTitle doc r := by
  unfold regAfterTitle
  cases titleData doc <;> simp

theorem jsonToOptStr_enc (o : Option String) : jsonToOptStr (optStrToJson o) = some o := by
  cases o <;> rfl

theorem jsonToStrList_enc (l : List String) : jsonToStrList (l.map Json.str) = some l := by
  induction l with
  | nil => rfl
  | cons a as ih => simp [jsonToStrList, ih]

theorem jsonToMetaVal_enc (v : MetaVal) : jsonToMetaVal (metaValToJson v) = some v := by
  cases v <;> simp [metaValToJson, jsonToMetaVal, jsonToStrList_enc]

theorem jsonToMetadata_enc (m : Metadata) :
    jsonToMetadata (m.map (fun kv => (kv.1, metaValToJson kv.2))) = some m := by
  induction m with
  | nil => rfl
  | cons kv rest ih =>
    obtain ⟨k, v⟩ := kv
    simp [jsonToMetadata, jsonToMetaVal_enc, ih]

theorem takeWhile_append_stop {p : Char → Bool} :
    ∀ (l1 : List Char) {c : Char} (l2 : List Char),
      (∀ a ∈ l1, p a = true) → p c = false → (l1 ++ c :: l2).takeWhile p = l1 := by
  intro l1
  induction l1 with
  | nil =>
    intro c l2 _ hc
    simp [List.takeWhile_cons, hc]
  | cons a as ih =>
    intro c l2 hall hc
    have ha : p a = true := hall a (by simp)
    simp only [List.cons_append, List.takeWhile_cons, ha, if_true]
    rw [ih l2 (fun x hx => hall x (by simp [hx])) hc]

theorem fixListMarkersAux_irrel (f1 : Nat) (s : List Char) :
    ∀ f2, s.length ≤ f1 → s.length ≤ f2 →
      fixListMarkersAux f1 s = fixListMarkersAux f2 s := by
  induction f1, s using fixListMarkersAux.induct with
  | case1 s =>
    intro f2 h1 _
    have hs : s = [] := List.length_eq_zero.mp (Nat.le_zero.mp h1)
    subst hs
    cases f2 <;> rfl
  | case2 n =>
    intro f2 _ _
    cases f2 <;> rfl
  | case3 fuel rest run r2 hcond ih =>
    intro f2 h1 h2
    cases f2 with
    | zero => simp at h2
    | succ g =>
      rw [fixListMarkersAux.eq_3, fixListMarkersAux.eq_3]
      split_ifs with hsplit
      · congr 1
        have hr2 : r2 = rest.drop run.length := rfl
        apply ih
        · simp only [List.length_cons] at h1
          rw [hr2]
          simp only [List.length_drop]
          omega
        · simp only [List.length_cons] at h2
          rw [hr2]
          simp only [List.length_drop]
          omega
      · exact absurd hcond hsplit
  | case4 fuel rest run r2 hcond ih =>
    intro f2 h1 h2
    cases f2 with
    | zero => simp at h2
    | succ g =>
      rw [fixListMarkersAux.eq_3, fixListMarkersAux.eq_3]
      split_ifs with hsplit
      · exact absurd hsplit hcond
      · congr 1
        apply ih
        · simp only [List.length_cons] at h1
          omega
        · simp only [List.length_cons] at h2
          omega
  | case5 fuel c rest hne ih =>
    intro f2 h1 h2
    cases f2 with
    | zero => simp at h2
    | succ g =>
      rw [fixListMarkersAux.eq_4 _ _ _ hne, fixListMarkersAux.eq_4 _ _ _ hne]
      congr 1
      apply ih
      · simp only [List.length_cons] at h1
        omega
      · simp only [List.length_cons] at h2
        omega

theorem fixNumMarkersAux_irrel (f1 : Nat) (s : List Char) :
    ∀ f2, s.length ≤ f1 → s.length ≤ f2 →
      fixNumMarkersAux f1 s = fixNumMarkersAux f2 s := by
  induction f1, s using fixNumMarkersAux.induct with
  | case1 s =>
    intro f2 h1 _
    have hs : s = [] := List.length_eq_zero.mp (Nat.le_zero.mp h1)
    subst hs
    cases f2 <;> rfl
  | case2 n =>
    intro f2 _ _
    cases f2 <;> rfl
  | case3 fuel rest ds r2 hcond ih =>
    intro f2 h1 h2
    cases f2 with
    | zero => simp at h2
    | succ g =>
      rw [fixNumMarkersAux.eq_3, fixNumMarkersAux.eq_3]
      split_ifs with hsplit
      · congr 1
        have hr2 : r2 = rest.drop ds.length := rfl
        apply ih
        · simp only [List.length_cons] at h1
          rw [hr2]
          simp only [List.length_drop]
          omega
        · simp only [List.length_cons] at h2
          rw [hr2]
          simp only [List.length_drop]
          omega
      · exact absurd hcond hsplit
  | case4 fuel rest ds r2 hcond ih =>
    intro f2 h1 h2
    cases f2 with
    | zero => simp at h2
    | succ g =>
      rw [fixNumMarkersAux.eq_3, fixNumMarkersAux.eq_3]
      split_ifs with hsplit
      · exact absurd hsplit hcond
      · congr 1
        apply ih
        · simp only [List.length_cons] at h1
          simp only [List.length_cons]
          omega
        · simp only [List.length_cons] at h2
          simp only [List.length_cons]
          omega
  | case5 fuel c rest hne ih =>
    intro f2 h1 h2
    cases f2 with
    | zero => simp at h2
    | succ g =>
      rw [fixNumMarkersAux.eq_4 _ _ _ hne, fixNumMarkersAux.eq_4 _ _ _ hne]
      congr 1
      apply ih
      · simp only [List.length_cons] at h1
        omega
      · simp only [List.length_cons] at h2
        omega

/-- A list-marker occurrence `(x)\n\n` at the scan position is rewritten to
`(x) ` joined with the following text, and scanning resumes after it. -/
theorem fixList_step (x t : List Char) (hx : x ≠ []) (hall : ∀ a ∈ x, isLowerAl a = true) :
    fixListMarkers ('(' :: (x ++ ')' :: '\n' :: '\n' :: t))
      = '(' :: (x ++ ')' :: ' ' :: fixListMarkers t) := by
  unfold fixListMarkers
  have hlen : ('(' :: (x ++ ')' :: '\n' :: '\n' :: t)).length = (x.length + t.length + 3) + 1 := by
    simp [List.length_append]
    omega
  rw [hlen, fixListMarkersAux.eq_3]
  have htw : (x ++ ')' :: '\n' :: '\n' :: t).takeWhile isLowerAl = x :=
    takeWhile_append_stop x _ hall (by decide)
  rw [htw, List.drop_left]
  have hc : (!x.isEmpty && listStarts [')', '\n', '\n'] (')' :: '\n' :: '\n' :: t)) = true := by
    cases x with
    | nil => exact absurd rfl hx
    | cons a as => simp [listStarts]
  rw [if_pos hc]
  have hdrop : List.drop 3 (')' :: '\n' :: '\n' :: t) = t := rfl
  rw [hdrop, fixListMarkersAux_irrel (x.length + t.length + 3) t t.length (by omega) (by omega)]
  simp

/-- A numbered-marker occurrence `\n\nN.\n\n` at the scan position is
rewritten to `\n\nN. ` joined with the following text. -/
theorem fixNum_step (n t : List Char) (hn : n ≠ []) (hall : ∀ a ∈ n, isDigitCh a = true) :
    fixNumMarkers ('\n' :: '\n' :: (n ++ '.' :: '\n' :: '\n' :: t))
      = '\n' :: '\n' :: (n ++ '.' :: ' ' :: fixNumMarkers t) := by
  unfold fixNumMarkers
  have hlen : ('\n' :: '\n' :: (n ++ '.' :: '\n' :: '\n' :: t)).length
      = (n.length + t.length + 4) + 1 := by
    simp [List.length_append]
    omega
  rw [hlen, fixNumMarkersAux.eq_3]
  have htw : (n ++ '.' :: '\n' :: '\n' :: t).takeWhile isDigitCh = n :=
    takeWhile_append_stop n _ hall (by decide)
  rw [htw, List.drop_left]
  have hc : (!n.isEmpty && listStarts ['.', '\n', '\n'] ('.' :: '\n' :: '\n' :: t)) = true := by
    cases n with
    | nil => exact absurd rfl hn
    | cons a as => simp [listStarts]
  rw [if_pos hc]
  have hdrop : List.drop 3 ('.' :: '\n' :: '\n' :: t) = t := rfl
  rw [hdrop, fixNumMarkersAux_irrel (n.length + t.length + 4) t t.length (by omega) (by omega)]
  simp

theorem hierTail_concat (r : String) (l : List String) (x : String) :
    ∃ pre, hierTail r (l ++ [x]) = pre ++ [x] := by
  unfold hierTail
  split
  · exact ⟨r :: l, rfl⟩
  · exact ⟨l, rfl⟩

theorem length_filterMap_optmap {α β γ : Type} (l : List α) (f : α → Option β) (g : β → γ) :
    (l.filterMap (fun x => (f x).map g)).length = (l.filterMap f).length := by
  induction l with
  | nil => rfl
  | cons a as ih => cases hfa : f a <;> simp [List.filterMap_cons, hfa, ih]

theorem partPairs_fst : ∀ l : List PartInfo, (partPairs l).map Prod.fst = l := by
  intro l
  induction l with
  | nil => rfl
  | cons p rest ih =>
    cases rest with
    | nil => rfl
    | cons q rest' =>
      simp only [partPairs, List.map_cons]
      rw [ih]

/-- Shape of every chunk produced by `_parse_article`: type `article`,
title the full article title, path the caller's hierarchy plus it. -/
theorem parse_article_shape {hier : List String} {art : HNode} {p : RegulationChunk × TocNode}
    (h : parse_article hier art = some p) :
    p.1.section_type = .article ∧ ∃ ft, p.1.title = some ft ∧ p.1.hierarchy_path = hier ++ [ft] := by
  simp only [parse_article] at h
  split at h
  · exact absurd h (by simp)
  · split at h
    · exact absurd h (by simp)
    · cases Option.some.inj h
      exact ⟨rfl, _, rfl, rfl⟩

/-- Shape of every chunk produced for one section container. -/
theorem parse_section_shape {chHier : List String} {sd : HNode}
    {q : List RegulationChunk × TocNode} {c : RegulationChunk}
    (hq : parse_section_div chHier sd = some q) (hc : c ∈ q.1) :
    c.section_type = .article ∧ ∃ pre ft, c.title = some ft ∧ c.hierarchy_path = pre ++ [ft] := by
  simp only [parse_section_div] at hq
  split at hq
  · exact absurd hq (by simp)
  · split at hq
    · exact absurd hq (by simp)
    · cases Option.some.inj hq
      simp only [List.mem_map] at hc
      obtain ⟨p, hp, rfl⟩ := hc
      rw [List.mem_filterMap] at hp
      obtain ⟨art, _, hart⟩ := hp
      obtain ⟨h1, ft, h2, h3⟩ := parse_article_shape hart
      exact ⟨h1, _, ft, h2, h3⟩

/-- Shape of every chunk produced for one chapter container. -/
theorem parse_chapter_shape {r : String} {cd : HNode}
    {q : List RegulationChunk × TocNode × List String} {c : RegulationChunk}
    (hq : parse_chapter r cd = some q) (hc : c ∈ q.1) :
    c.section_type = .article ∧ ∃ pre ft, c.title = some ft ∧ c.hierarchy_path = pre ++ [ft] := by
  simp only [parse_chapter] at hq
  split at hq
  · exact absurd hq (by simp)
  · split at hq
    · exact absurd hq (by simp)
    · split at hq
      · cases Option.some.inj hq
        rw [List.mem_flatMap] at hc
        obtain ⟨sq, hsq, hcq⟩ := hc
        rw [List.mem_filterMap] at hsq
        obtain ⟨sd, _, hsd⟩ := hsq
        exact parse_section_shape hsd hcq
      · cases Option.some.inj hq
        simp only [List.mem_map] at hc
        obtain ⟨p, hp, rfl⟩ := hc
        rw [List.mem_filterMap] at hp
        obtain ⟨art, _, hart⟩ := hp
        obtain ⟨h1, ft, h2, h3⟩ := parse_article_shape hart
        exact ⟨h1, _, ft, h2, h3⟩

/-- Shape of every chunk produced by the enacting-terms phase. -/
theorem enacting_chunk_shape {doc : HNode} {r : String} {c : RegulationChunk}
    (hc : c ∈ (parse_enacting_terms doc r).1) :
    c.section_type = .article ∧ ∃ pre ft, c.title = some ft ∧ c.hierarchy_path = pre ++ [ft] := by
  simp only [parse_enacting_terms] at hc
  split at hc
  · split at hc
    · simp only [List.mem_map] at hc
      obtain ⟨p, hp, rfl⟩ := hc
      rw [List.mem_filterMap] at hp
      obtain ⟨art, _, hart⟩ := hp
      obtain ⟨h1, ft, h2, h3⟩ := parse_article_shape hart
      exact ⟨h1, _, ft, h2, h3⟩
    · exact absurd hc (by simp)
  · rw [List.mem_flatMap] at hc
    obtain ⟨cq, hcq, hcc⟩ := hc
    rw [List.mem_filterMap] at hcq
    obtain ⟨cd, _, hcd⟩ := hcq
    exact parse_chapter_shape hcd hcc

theorem asString_data (l : List Char) : (l.asString).data = l := rfl

/-- A captured recital number is a non-empty string of decimal digits. -/
theorem recitalNumOf_digits {t : String} {n : String} (h : recitalNumOf t = some n) :
    n.data ≠ [] ∧ n.data.all isDigitCh = true := by
  unfold recitalNumOf at h
  split at h
  · rename_i r
    simp only [] at h
    split at h
    · exact absurd h (by simp)
    · split at h
      · cases Option.some.inj h
        rename_i hne _ _
        constructor
        · rw [asString_data]
          intro hnil
          rw [hnil] at hne
          exact hne rfl
        · rw [asString_data]
          exact List.all_eq_true.mpr (fun x hx => List.mem_takeWhile_imp hx)
      · exact absurd h (by simp)
  · exact absurd h (by simp)

/-- Shape of the title chunk. -/
theorem title_chunk_shape {doc : HNode} {c : RegulationChunk}
    (hc : c ∈ parse_title_chunks doc) :
    c.section_type = .title ∧ ∃ t, c.title = some t ∧ c.hierarchy_path = [] ++ [t] := by
  unfold parse_title_chunks at hc
  split at hc
  · exact absurd hc (by simp)
  · rw [List.mem_singleton] at hc
    subst hc
    exact ⟨rfl, _, rfl, rfl⟩

/-- Shape of the preamble body chunk. -/
theorem preamble_chunk_shape {doc : HNode} {r : String} {c : RegulationChunk}
    (hc : c ∈ preamble_chunks doc r) :
    c.section_type = .preamble ∧
      ∃ pre, c.title = some "Preamble" ∧ c.hierarchy_path = pre ++ ["Preamble"] := by
  unfold preamble_chunks at hc
  split at hc
  · exact absurd hc (by simp)
  · dsimp only at hc
    split at hc
    · exact absurd hc (by simp)
    · rw [List.mem_singleton] at hc
      subst hc
      refine ⟨rfl, ?_⟩
      obtain ⟨pre, hp⟩ := hierTail_concat r [] "Preamble"
      exact ⟨pre, rfl, hp⟩

/-- Shape of the merged citation chunk. -/
theorem citation_chunk_shape {doc : HNode} {r : String} {c : RegulationChunk}
    (hc : c ∈ citation_chunks doc r) :
    c.section_type = .citation ∧
      c.content = sepJoin "\n\n" ((citationPairs doc).map Prod.fst) ∧
      lookupMeta "citation_ids" c.metadata
        = some (.list ((citationPairs doc).map Prod.snd)) ∧
      ∃ pre, c.title = some "Citation" ∧ c.hierarchy_path = pre ++ ["Citation"] := by
  unfold citation_chunks at hc
  split at hc
  · rw [List.mem_singleton] at hc
    subst hc
    refine ⟨rfl, rfl, by simp [lookupMeta], ?_⟩
    obtain ⟨pre, hp⟩ := hierTail_concat r ["Preamble"] "Citation"
    exact ⟨pre, rfl, hp⟩
  · exact absurd hc (by simp)

/-- The number captured from a recital row is a non-empty digit string. -/
theorem recitalRowData_digits {row : HNode} {nc : String × String}
    (h : recitalRowData row = some nc) :
    nc.1.data ≠ [] ∧ nc.1.data.all isDigitCh = true := by
  unfold recitalRowData at h
  split at h
  · split at h
    · cases Option.some.inj h
      rename_i hnum
      exact recitalNumOf_digits hnum
    · exact absurd h (by simp)
  · exact absurd h (by simp)

/-- Shape of every recital chunk. -/
theorem recital_chunk_shape {doc : HNode} {r : String} {c : RegulationChunk}
    (hc : c ∈ (recitalDivs doc).flatMap (recital_chunks_of r)) :
    c.section_type = .recital ∧
      (∃ n, c.number = some n ∧ n.data ≠ [] ∧ n.data.all isDigitCh = true) ∧
      ∃ pre ft, c.title = some ft ∧ c.hierarchy_path = pre ++ [ft] := by
  rw [List.mem_flatMap] at hc
  obtain ⟨rct, _, hc⟩ := hc
  unfold recital_chunks_of at hc
  rw [List.mem_filterMap] at hc
  obtain ⟨row, _, hrow⟩ := hc
  rw [Option.map_eq_some'] at hrow
  obtain ⟨nc, hnc, rfl⟩ := hrow
  refine ⟨rfl, ⟨nc.1, rfl, (recitalRowData_digits hnc).1, (recitalRowData_digits hnc).2⟩, ?_⟩
  obtain ⟨pre, hp⟩ := hierTail_concat r ["Preamble"] ("Recital " ++ nc.1)
  exact ⟨pre, _, rfl, hp⟩

/-- Shape of the concluding-formulas chunk. -/
theorem concluding_chunk_shape {doc : HNode} {r : String}
    {ct : RegulationChunk × TocNode} (h : parse_concluding doc r = some ct) :
    ct.1.section_type = .concluding_formulas ∧
      ∃ pre, ct.1.title = some "Concluding formulas" ∧
        ct.1.hierarchy_path = pre ++ ["Concluding formulas"] := by
  simp only [parse_concluding] at h
  split at h
  · exact absurd h (by simp)
  · split at h
    · exact absurd h (by simp)
    · split at h
      · cases Option.some.inj h
        refine ⟨rfl, ?_⟩
        obtain ⟨pre, hp⟩ := hierTail_concat r [] "Concluding formulas"
        exact ⟨pre, rfl, hp⟩
      · exact absurd h (by simp)

/-- Shape of every annex/appendix chunk: annex or appendix typed; whole-annex
chunks end their path with their own title, part chunks end it with the part
heading while the title prefixes the annex base title. -/
theorem annex_chunk_shape {doc : HNode} {r : String} {c : RegulationChunk}
    (hc : c ∈ parse_annexes_chunks doc r) :
    (c.section_type = .annex ∨ c.section_type = .appendix) ∧
      ((∃ pre ft, c.title = some ft ∧ c.hierarchy_path = pre ++ [ft]) ∨
       (∃ pre b last', c.title = some (b ++ " - " ++ last') ∧
         c.hierarchy_path = pre ++ [last'])) := by
  unfold parse_annexes_chunks at hc
  rw [List.mem_flatMap] at hc
  obtain ⟨a, _, hc⟩ := hc
  unfold annex_chunks_for at hc
  split at hc
  · unfold annex_part_chunks at hc
    simp only [List.mem_map] at hc
    obtain ⟨pq, _, rfl⟩ := hc
    constructor
    · by_cases hia : (annexIdentifier a.nodeId).1 = true
      · right
        simp [hia]
      · left
        simp [hia]
    · right
      exact ⟨_, _, _, rfl, rfl⟩
  · unfold annex_whole_chunks at hc
    dsimp only at hc
    split at hc <;> split at hc
    · rw [List.mem_singleton] at hc
      subst hc
      constructor
      · by_cases hia : (annexIdentifier a.nodeId).1 = true
        · right
          simp [hia]
        · left
          simp [hia]
      · left
        obtain ⟨pre, hp⟩ := hierTail_concat r []
          ((annexTitleData a (annexIdentifier a.nodeId).1 (annexIdentifier a.nodeId).2).1 ++
            (if (annexTitleData a (annexIdentifier a.nodeId).1 (annexIdentifier a.nodeId).2).2 != ""
             then " - " ++ (annexTitleData a (annexIdentifier a.nodeId).1 (annexIdentifier a.nodeId).2).2
             else ""))
        exact ⟨pre, _, rfl, hp⟩
    · exact absurd hc (by simp)
    · rw [List.mem_singleton] at hc
      subst hc
      constructor
      · by_cases hia : (annexIdentifier a.nodeId).1 = true
        · right
          simp [hia]
        · left
          simp [hia]
      · left
        obtain ⟨pre, hp⟩ := hierTail_concat r []
          ((annexTitleData a (annexIdentifier a.nodeId).1 (annexIdentifier a.nodeId).2).1 ++
            (if (annexTitleData a (annexIdentifier a.nodeId).1 (annexIdentifier a.nodeId).2).2 != ""
             then " - " ++ (annexTitleData a (annexIdentifier a.nodeId).1 (annexIdentifier a.nodeId).2).2
             else ""))
        exact ⟨pre, _, rfl, hp⟩
    · exact absurd hc (by simp)

theorem enacting_sec_ty (doc : HNode) (r : String) :
    ((parse_enacting_terms doc r).2).ty = "enacting_terms" := by
  simp only [parse_enacting_terms]
  split
  · split
    · rfl
    · rfl
  · rfl

/-- `parse()` chunk output on a fresh instance, split by driver. -/
theorem parseChunks_decomp (doc : HNode) :
    parseChunks doc
      = parse_title_chunks doc
        ++ (preamble_chunks doc (regAfterTitle doc "")
            ++ citation_chunks doc (regAfterTitle doc "")
            ++ (recitalDivs doc).flatMap (recital_chunks_of (regAfterTitle doc "")))
        ++ (parse_enacting_terms doc (regAfterTitle doc "")).1
        ++ (match parse_concluding doc (regAfterTitle doc "") with
            | some ct => [ct.1]
            | none => [])
        ++ parse_annexes_chunks doc (regAfterTitle doc "") := by
  simp [parseChunks, parse_run, initState, chunksGiven, parse_preamble_chunks]

/-- Every chunk of one `parse()` run comes from exactly one driver, with the
driver's section type. -/
theorem chunk_driver_cases {doc : HNode} {r : String} {c : RegulationChunk}
    (hc : c ∈ chunksGiven doc r) :
    (c ∈ parse_title_chunks doc ∧ c.section_type = .title) ∨
    (c ∈ preamble_chunks doc r ∧ c.section_type = .preamble) ∨
    (c ∈ citation_chunks doc r ∧ c.section_type = .citation) ∨
    (c ∈ (recitalDivs doc).flatMap (recital_chunks_of r) ∧ c.section_type = .recital) ∨
    (c ∈ (parse_enacting_terms doc r).1 ∧ c.section_type = .article) ∨
    ((∃ ct, parse_concluding doc r = some ct ∧ c = ct.1) ∧
      c.section_type = .concluding_formulas) ∨
    (c ∈ parse_annexes_chunks doc r ∧
      (c.section_type = .annex ∨ c.section_type = .appendix)) := by
  unfold chunksGiven at hc
  simp only [List.mem_append] at hc
  rcases hc with ((((h | h) | h) | h) | h)
  · exact Or.inl ⟨h, (title_chunk_shape h).1⟩
  · unfold parse_preamble_chunks at h
    simp only [List.mem_append] at h
    rcases h with (h | h) | h
    · exact Or.inr (Or.inl ⟨h, (preamble_chunk_shape h).1⟩)
    · exact Or.inr (Or.inr (Or.inl ⟨h, (citation_chunk_shape h).1⟩))
    · exact Or.inr (Or.inr (Or.inr (Or.inl ⟨h, (recital_chunk_shape h).1⟩)))
  · exact Or.inr (Or.inr (Or.inr (Or.inr (Or.inl ⟨h, (enacting_chunk_shape h).1⟩))))
  · cases hm : parse_concluding doc r with
    | none => rw [hm] at h; exact absurd h (by simp)
    | some ct =>
      rw [hm] at h
      rw [List.mem_singleton] at h
      subst h
      exact Or.inr (Or.inr (Or.inr (Or.inr (Or.inr (Or.inl
        ⟨⟨ct, rfl, rfl⟩, (concluding_chunk_shape hm).1⟩)))))
  · exact Or.inr (Or.inr (Or.inr (Or.inr (Or.inr (Or.inr ⟨h, (annex_chunk_shape h).1⟩)))))

theorem chunk_driver_cases' {doc : HNode} {c : RegulationChunk}
    (hc : c ∈ parseChunks doc) : c ∈ chunksGiven doc (regAfterTitle doc "") := by
  simpa [parseChunks, parse_run, initState] using hc

/-! Filter helpers: one driver's chunks survive a section-type filter, the
others vanish. -/

theorem filter_title_nil {doc : HNode} {p : RegulationChunk → Bool}
    (hp : ∀ c : RegulationChunk, c.section_type = .title → p c = false) :
    (parse_title_chunks doc).filter p = [] :=
  List.filter_eq_nil_iff.mpr fun c hcm => by rw [hp c (title_chunk_shape hcm).1]; simp

theorem filter_preamble_nil {doc : HNode} {r : String} {p : RegulationChunk → Bool}
    (hp : ∀ c : RegulationChunk, c.section_type = .preamble → p c = false) :
    (preamble_chunks doc r).filter p = [] :=
  List.filter_eq_nil_iff.mpr fun c hcm => by rw [hp c (preamble_chunk_shape hcm).1]; simp

theorem filter_citation_nil {doc : HNode} {r : String} {p : RegulationChunk → Bool}
    (hp : ∀ c : RegulationChunk, c.section_type = .citation → p c = false) :
    (citation_chunks doc r).filter p = [] :=
  List.filter_eq_nil_iff.mpr fun c hcm => by rw [hp c (citation_chunk_shape hcm).1]; simp

theorem filter_recitals_nil {doc : HNode} {r : String} {p : RegulationChunk → Bool}
    (hp : ∀ c : RegulationChunk, c.section_type = .recital → p c = false) :
    ((recitalDivs doc).flatMap (recital_chunks_of r)).filter p = [] :=
  List.filter_eq_nil_iff.mpr fun c hcm => by rw [hp c (recital_chunk_shape hcm).1]; simp

theorem filter_enacting_nil {doc : HNode} {r : String} {p : RegulationChunk → Bool}
    (hp : ∀ c : RegulationChunk, c.section_type = .article → p c = false) :
    ((parse_enacting_terms doc r).1).filter p = [] :=
  List.filter_eq_nil_iff.mpr fun c hcm => by rw [hp c (enacting_chunk_shape hcm).1]; simp

theorem filter_concluding_nil {doc : HNode} {r : String} {p : RegulationChunk → Bool}
    (hp : ∀ c : RegulationChunk, c.section_type = .concluding_formulas → p c = false) :
    ((match parse_concluding doc r with
      | some ct => [ct.1]
      | none => []).filter p) = [] := by
  cases hm : parse_concluding doc r with
  | none => rfl
  | some ct => simp [hp ct.1 (concluding_chunk_shape hm).1]

theorem filter_annex_nil {doc : HNode} {r : String} {p : RegulationChunk → Bool}
    (hp : ∀ c : RegulationChunk,
      c.section_type = .annex ∨ c.section_type = .appendix → p c = false) :
    (parse_annexes_chunks doc r).filter p = [] :=
  List.filter_eq_nil_iff.mpr fun c hcm => by rw [hp c (annex_chunk_shape hcm).1]; simp

/-! ## Claim theorems. -/

/-- C1 counterexample: for the document `annexPartDoc` (an annex subdivided
into one part) some emitted chunk's hierarchy path does not end with the
chunk's own title: the part chunk's path ends with "PART 1" while its title
is "ANNEX I - PART 1". -/
theorem hierarchy_last_counterexample :
    ((parseChunks annexPartDoc).all
      (fun c => decide (c.title = c.hierarchy_path.getLast?))) = false ∧
    (parseChunks annexPartDoc).map (fun c => (c.title, c.hierarchy_path.getLast?))
      = [(some "ANNEX I - PART 1", some "PART 1")] := by
  constructor
  · decide
  · decide

/-- C1 (amended): every chunk emitted by `parse()` has a non-empty
hierarchy path; the path's last element equals the chunk's own title,
except annex/appendix part chunks, whose path ends with the part heading
while the chunk title is the annex base title, " - ", and that heading. -/
theorem hierarchy_path_last (doc : HNode) (c : RegulationChunk)
    (hc : c ∈ parseChunks doc) :
    c.hierarchy_path ≠ [] ∧
      (c.title = c.hierarchy_path.getLast? ∨
       ((c.section_type = .annex ∨ c.section_type = .appendix) ∧
        ∃ b last', c.hierarchy_path.getLast? = some last' ∧
          c.title = some (b ++ " - " ++ last'))) := by
  have hc' := chunk_driver_cases' hc
  have conclude : ∀ (pre : List String) (ft : String),
      c.title = some ft → c.hierarchy_path = pre ++ [ft] →
      c.hierarchy_path ≠ [] ∧ c.title = c.hierarchy_path.getLast? := by
    intro pre ft h1 h2
    rw [h2]
    refine ⟨by simp, ?_⟩
    rw [List.getLast?_concat, h1]
  unfold chunksGiven at hc'
  simp only [List.mem_append] at hc'
  rcases hc' with ((((h | h) | h) | h) | h)
  · obtain ⟨_, t, h1, h2⟩ := title_chunk_shape h
    obtain ⟨hne, heq⟩ := conclude [] t h1 h2
    exact ⟨hne, Or.inl heq⟩
  · unfold parse_preamble_chunks at h
    simp only [List.mem_append] at h
    rcases h with (h | h) | h
    · obtain ⟨_, pre, h1, h2⟩ := preamble_chunk_shape h
      obtain ⟨hne, heq⟩ := conclude pre _ h1 h2
      exact ⟨hne, Or.inl heq⟩
    · obtain ⟨_, _, _, pre, h1, h2⟩ := citation_chunk_shape h
      obtain ⟨hne, heq⟩ := conclude pre _ h1 h2
      exact ⟨hne, Or.inl heq⟩
    · obtain ⟨_, _, pre, ft, h1, h2⟩ := recital_chunk_shape h
      obtain ⟨hne, heq⟩ := conclude pre ft h1 h2
      exact ⟨hne, Or.inl heq⟩
  · obtain ⟨_, pre, ft, h1, h2⟩ := enacting_chunk_shape h
    obtain ⟨hne, heq⟩ := conclude pre ft h1 h2
    exact ⟨hne, Or.inl heq⟩
  · cases hm : parse_concluding doc (regAfterTitle doc "") with
    | none => rw [hm] at h; exact absurd h (by simp)
    | some ct =>
      rw [hm] at h
      rw [List.mem_singleton] at h
      subst h
      obtain ⟨_, pre, h1, h2⟩ := concluding_chunk_shape hm
      obtain ⟨hne, heq⟩ := conclude pre _ h1 h2
      exact ⟨hne, Or.inl heq⟩
  · obtain ⟨hty, hsh⟩ := annex_chunk_shape h
    rcases hsh with ⟨pre, ft, h1, h2⟩ | ⟨pre, b, last', h1, h2⟩
    · obtain ⟨hne, heq⟩ := conclude pre ft h1 h2
      exact ⟨hne, Or.inl heq⟩
    · refine ⟨by rw [h2]; simp, Or.inr ⟨hty, b, last', ?_, h1⟩⟩
      rw [h2, List.getLast?_concat]

/-- The part chunk emitted for `annexPartDoc`. -/
def annexPartChunkW : RegulationChunk :=
  { section_type := .annex, number := some "I.1", title := some "ANNEX I - PART 1",
    content := "Scope of the list.", hierarchy_path := ["ANNEX I", "PART 1"],
    metadata := [("id", .s "anx_I"), ("part", .s "1")] }

/-- C1 witness: the amended invariant, instantiated at a concrete document
and chunk. -/
theorem hierarchy_path_last_witness :
    annexPartChunkW.hierarchy_path ≠ [] ∧
      (annexPartChunkW.title = annexPartChunkW.hierarchy_path.getLast? ∨
       ((annexPartChunkW.section_type = .annex ∨ annexPartChunkW.section_type = .appendix) ∧
        ∃ b last', annexPartChunkW.hierarchy_path.getLast? = some last' ∧
          annexPartChunkW.title = some (b ++ " - " ++ last'))) :=
  hierarchy_path_last annexPartDoc annexPartChunkW (by decide)

theorem length_flatMap_sum {α β : Type} (l : List α) (f : α → List β) :
    (l.flatMap f).length = (l.map (fun a => (f a).length)).sum := by
  induction l with
  | nil => rfl
  | cons a as ih => simp [List.flatMap_cons, List.length_append, ih]

/-- C3 counterexample: a single recital element whose first table has two
rows matching `^\((\d+)\)$` yields two chunks, not exactly one. -/
theorem recital_multiplicity_counterexample :
    (recitalDivs doubleRecitalDoc).length = 1 ∧
    ((parseChunks doubleRecitalDoc).filter
      (fun c => c.section_type == SectionType.recital)).length = 2 := by
  constructor
  · decide
  · decide

/-- C3 (amended): `parse()` emits one recital chunk per two-cell row of a
recital element's first table whose cleaned first cell matches
`^\((\d+)\)$` exactly (in well-formed documents, one per recital); rows
failing the pattern are skipped silently — no chunk, no error — so a
malformed recital contributes nothing while well-formed siblings still
produce chunks; every recital chunk's number is the captured non-empty
digit string. -/
theorem recital_chunks_per_matching_row (doc : HNode) :
    ((parseChunks doc).filter (fun c => c.section_type == SectionType.recital)).length
      = ((recitalDivs doc).map
          (fun rct => ((recitalRows rct).filterMap recitalRowData).length)).sum ∧
    ∀ c ∈ parseChunks doc, c.section_type = .recital →
      ∃ n, c.number = some n ∧ n.data ≠ [] ∧ n.data.all isDigitCh = true := by
  constructor
  · rw [parseChunks_decomp]
    simp only [List.filter_append, List.length_append]
    rw [filter_title_nil (by intro c h; rw [h]; rfl),
        filter_preamble_nil (by intro c h; rw [h]; rfl),
        filter_citation_nil (by intro c h; rw [h]; rfl),
        filter_enacting_nil (by intro c h; rw [h]; rfl),
        filter_concluding_nil (by intro c h; rw [h]; rfl),
        filter_annex_nil (by intro c h; rcases h with h | h <;> rw [h] <;> rfl)]
    rw [List.filter_eq_self.mpr
        (fun c hcm => by rw [(recital_chunk_shape hcm).1]; rfl)]
    rw [length_flatMap_sum]
    simp only [List.length_nil, Nat.zero_add, Nat.add_zero]
    congr 1
    exact List.map_congr_left
      (fun rct _ => length_filterMap_optmap (recitalRows rct) recitalRowData _)
  · intro c hc hty
    rcases chunk_driver_cases (chunk_driver_cases' hc) with
      h | h | h | h | h | h | h
    · rw [h.2] at hty; cases hty
    · rw [h.2] at hty; cases hty
    · rw [h.2] at hty; cases hty
    · exact (recital_chunk_shape h.1).2.1
    · rw [h.2] at hty; cases hty
    · rw [h.2] at hty; cases hty
    · rcases h.2 with h2 | h2 <;> (rw [h2] at hty; cases hty)

/-- The recital chunk emitted for `mixedRecitalDoc`. -/
def recitalChunkW : RegulationChunk :=
  { section_type := .recital, number := some "15", title := some "Recital 15",
    content := "Good reason.", hierarchy_path := ["Preamble", "Recital 15"],
    metadata := [("id", .s "rct_15")] }

/-- C3 witness: the amended statement instantiated at a document with a
malformed recital "14" (skipped) and a well-formed "(15)". -/
theorem recital_chunks_witness :
    (((parseChunks mixedRecitalDoc).filter
        (fun c => c.section_type == SectionType.recital)).length
      = ((recitalDivs mixedRecitalDoc).map
          (fun rct => ((recitalRows rct).filterMap recitalRowData).length)).sum) ∧
    ∃ n, recitalChunkW.number = some n ∧ n.data ≠ [] ∧ n.data.all isDigitCh = true :=
  ⟨(recital_chunks_per_matching_row mixedRecitalDoc).1,
   (recital_chunks_per_matching_row mixedRecitalDoc).2 recitalChunkW (by decide) rfl⟩

/-- A citation chunk is possible exactly when some citation element
contributed non-empty text. -/
theorem hasCitationChunk_iff (doc : HNode) :
    hasCitationChunk doc = true ↔ citationPairs doc ≠ [] := by
  unfold hasCitationChunk
  constructor
  · intro h
    have h2 := (Bool.and_eq_true _ _).mp h
    intro hnil
    rw [hnil] at h2
    simp at h2
  · intro hne
    have hdivs : citationDivs doc ≠ [] := by
      intro hd
      apply hne
      unfold citationPairs
      rw [hd]
      rfl
    simp only [Bool.and_eq_true, Bool.not_eq_true']
    constructor
    · rw [List.isEmpty_eq_false_iff_exists_mem]
      cases hcd : citationDivs doc with
      | nil => exact absurd hcd hdivs
      | cons a as => exact ⟨a, by simp⟩
    · rw [List.isEmpty_eq_false_iff_exists_mem]
      cases hcp : citationPairs doc with
      | nil => exact absurd hcp hne
      | cons a as => exact ⟨a, by simp⟩

/-- C2 counterexample: a document with one citation element (that has no
`oj-normal` paragraph) yields zero citation chunks, not exactly one. -/
theorem citation_merge_counterexample :
    (citationDivs citNoParaDoc).length = 1 ∧
    ((parseChunks citNoParaDoc).filter
      (fun c => c.section_type == SectionType.citation)).length = 0 := by
  constructor
  · decide
  · decide

/-- C2 (amended): `parse()` emits at most one citation chunk: exactly one
when at least one citation element has a first `oj-normal` paragraph with
non-empty cleaned text, zero otherwise; the chunk's content is those
contributing citations' texts joined by blank lines, and its
`citation_ids` metadata lists one id per contributing citation element. -/
theorem citation_merge (doc : HNode) :
    ((parseChunks doc).filter (fun c => c.section_type == SectionType.citation)).length
      = (if citationPairs doc = [] then 0 else 1) ∧
    ∀ c ∈ parseChunks doc, c.section_type = .citation →
      c.content = sepJoin "\n\n" ((citationPairs doc).map Prod.fst) ∧
      lookupMeta "citation_ids" c.metadata
        = some (.list ((citationPairs doc).map Prod.snd)) ∧
      ((citationPairs doc).map Prod.snd).length = (citationPairs doc).length := by
  constructor
  · rw [parseChunks_decomp]
    simp only [List.filter_append, List.length_append]
    rw [filter_title_nil (by intro c h; rw [h]; rfl),
        filter_preamble_nil (by intro c h; rw [h]; rfl),
        filter_recitals_nil (by intro c h; rw [h]; rfl),
        filter_enacting_nil (by intro c h; rw [h]; rfl),
        filter_concluding_nil (by intro c h; rw [h]; rfl),
        filter_annex_nil (by intro c h; rcases h with h | h <;> rw [h] <;> rfl)]
    rw [List.filter_eq_self.mpr
        (fun c hcm => by rw [(citation_chunk_shape hcm).1]; rfl)]
    simp only [List.length_nil, Nat.zero_add, Nat.add_zero]
    unfold citation_chunks
    by_cases hp : citationPairs doc = []
    · have : hasCitationChunk doc = false := by
        rw [← Bool.not_eq_true]
        intro hh
        exact (hasCitationChunk_iff doc).mp hh hp
      rw [this, if_pos hp]
      rfl
    · rw [(hasCitationChunk_iff doc).mpr hp, if_neg hp]
      rfl
  · intro c hc hty
    rcases chunk_driver_cases (chunk_driver_cases' hc) with
      h | h | h | h | h | h | h
    · rw [h.2] at hty; cases hty
    · rw [h.2] at hty; cases hty
    · obtain ⟨_, hcontent, hmeta, _⟩ := citation_chunk_shape h.1
      exact ⟨hcontent, hmeta, by rw [List.length_map]⟩
    · rw [h.2] at hty; cases hty
    · rw [h.2] at hty; cases hty
    · rw [h.2] at hty; cases hty
    · rcases h.2 with h2 | h2 <;> (rw [h2] at hty; cases hty)

/-- The citation chunk emitted for `twoCitationDoc`. -/
def citationChunkW : RegulationChunk :=
  { section_type := .citation, number := none, title := some "Citation",
    content := "Having regard to the Treaty,\n\nHaving regard to the proposal,",
    hierarchy_path := ["Preamble", "Citation"],
    metadata := [("id", .s "cit_1"), ("citation_ids", .list ["cit_1", "cit_2"])] }

/-- C2 witness: the amended statement instantiated at a document with two
contributing citation elements. -/
theorem citation_merge_witness :
    (((parseChunks twoCitationDoc).filter
        (fun c => c.section_type == SectionType.citation)).length
      = (if citationPairs twoCitationDoc = [] then 0 else 1)) ∧
    citationChunkW.content
      = sepJoin "\n\n" ((citationPairs twoCitationDoc).map Prod.fst) ∧
    lookupMeta "citation_ids" citationChunkW.metadata
      = some (.list ((citationPairs twoCitationDoc).map Prod.snd)) :=
  ⟨(citation_merge twoCitationDoc).1,
   ((citation_merge twoCitationDoc).2 citationChunkW (by decide) rfl).1,
   ((citation_merge twoCitationDoc).2 citationChunkW (by decide) rfl).2.1⟩

/-- C6 counterexample: a document whose main-title container exists but
holds no `oj-doc-ti` heading paragraph yields zero title chunks, though the
title container exists. -/
theorem title_chunk_counterexample :
    (titleDivOf emptyTitleDoc).isSome = true ∧
    ((parseChunks emptyTitleDoc).filter
      (fun c => c.section_type == SectionType.title)).length = 0 := by
  constructor
  · decide
  · decide

/-- C6 (amended): `parse()` emits exactly one title chunk when a main-title
container exists and holds at least one heading paragraph, zero otherwise;
when emitted, the chunk's content is all heading paragraphs joined in
order, and the first becomes both the chunk title and `regulation_title`
used by the later drivers. -/
theorem title_chunk_unique (doc : HNode) :
    ((parseChunks doc).filter (fun c => c.section_type == SectionType.title)).length
      = (match titleData doc with
         | some _ => 1
         | none => 0) ∧
    ∀ c ∈ parseChunks doc, c.section_type = .title →
      ∃ t parts tid, titleData doc = some (t, parts, tid) ∧
        c.title = some t ∧ c.content = sepJoin "\n\n" parts ∧
        regAfterTitle doc "" = t := by
  constructor
  · rw [parseChunks_decomp]
    simp only [List.filter_append, List.length_append]
    rw [filter_preamble_nil (by intro c h; rw [h]; rfl),
        filter_citation_nil (by intro c h; rw [h]; rfl),
        filter_recitals_nil (by intro c h; rw [h]; rfl),
        filter_enacting_nil (by intro c h; rw [h]; rfl),
        filter_concluding_nil (by intro c h; rw [h]; rfl),
        filter_annex_nil (by intro c h; rcases h with h | h <;> rw [h] <;> rfl)]
    rw [List.filter_eq_self.mpr
        (fun c hcm => by rw [(title_chunk_shape hcm).1]; rfl)]
    simp only [List.length_nil, Nat.zero_add, Nat.add_zero]
    unfold parse_title_chunks
    cases titleData doc with
    | none => rfl
    | some td => rfl
  · intro c hc hty
    rcases chunk_driver_cases (chunk_driver_cases' hc) with
      h | h | h | h | h | h | h
    · have hmem := h.1
      unfold parse_title_chunks at hmem
      cases ht : titleData doc with
      | none => rw [ht] at hmem; exact absurd hmem (by simp)
      | some td =>
        obtain ⟨t, parts, tid⟩ := td
        rw [ht] at hmem
        rw [List.mem_singleton] at hmem
        subst hmem
        exact ⟨t, parts, tid, rfl, rfl, rfl, by simp [regAfterTitle, ht]⟩
    · rw [h.2] at hty; cases hty
    · rw [h.2] at hty; cases hty
    · rw [h.2] at hty; cases hty
    · rw [h.2] at hty; cases hty
    · rw [h.2] at hty; cases hty
    · rcases h.2 with h2 | h2 <;> (rw [h2] at hty; cases hty)

/-- The title chunk emitted for `scenarioDoc`. -/
def titleChunkW : RegulationChunk :=
  { section_type := .title, number := none, title := some "REGULATION (EU) 2024/1689",
    content := "REGULATION (EU) 2024/1689",
    hierarchy_path := ["REGULATION (EU) 2024/1689"],
    metadata := [("id", .s "")] }

/-- C6 witness: the amended statement instantiated at a concrete document
with a one-paragraph main title. -/
theorem title_chunk_unique_witness :
    (((parseChunks scenarioDoc).filter
        (fun c => c.section_type == SectionType.title)).length
      = (match titleData scenarioDoc with
         | some _ => 1
         | none => 0)) ∧
    ∃ t parts tid, titleData scenarioDoc = some (t, parts, tid) ∧
      titleChunkW.title = some t ∧ titleChunkW.content = sepJoin "\n\n" parts ∧
      regAfterTitle scenarioDoc "" = t :=
  ⟨(title_chunk_unique scenarioDoc).1,
   (title_chunk_unique scenarioDoc).2 titleChunkW (by decide) rfl⟩

/-- C4 counterexample: an annex container with no detected parts and no
content (and no subtitle) yields zero chunks, not exactly one. -/
theorem annex_exclusivity_counterexample :
    (annexDivs emptyAnnexDoc).length = 1 ∧
    (annexDivs emptyAnnexDoc).map (fun a => (partsDetected a).length) = [0] ∧
    ((parseChunks emptyAnnexDoc).filter
      (fun c => c.section_type == SectionType.annex
        || c.section_type == SectionType.appendix)).length = 0 := by
  refine ⟨?_, ?_, ?_⟩
  · decide
  · decide
  · decide

/-- C4 (amended): the annex/appendix chunks of `parse()` are exactly the
per-container outputs; for a container with detected parts, one chunk per
detected heading is emitted (numbered `<annex id>.<part number>`) and none
for the container itself; for a container without detected parts, exactly
one chunk is emitted when the extracted body text or the subtitle is
non-empty, zero otherwise — never both behaviors for one container. -/
theorem annex_part_exclusivity (doc : HNode) :
    ((parseChunks doc).filter
        (fun c => c.section_type == SectionType.annex
          || c.section_type == SectionType.appendix))
      = parse_annexes_chunks doc (regAfterTitle doc "") ∧
    (∀ (r : String) (a : HNode), partsDetected a ≠ [] →
      (annex_chunks_for r a).map (fun c => c.number)
        = (partsDetected a).map
            (fun p => some ((annexIdentifier a.nodeId).2 ++ "." ++ p.number))) ∧
    (∀ (r : String) (a : HNode), partsDetected a = [] →
      (annex_chunks_for r a).length =
        (if annexWholeContent a != "" ||
            (annexTitleData a (annexIdentifier a.nodeId).1
              (annexIdentifier a.nodeId).2).2 != ""
         then 1 else 0)) := by
  refine ⟨?_, ?_, ?_⟩
  · rw [parseChunks_decomp]
    simp only [List.filter_append]
    rw [filter_title_nil (by intro c h; rw [h]; rfl),
        filter_preamble_nil (by intro c h; rw [h]; rfl),
        filter_citation_nil (by intro c h; rw [h]; rfl),
        filter_recitals_nil (by intro c h; rw [h]; rfl),
        filter_enacting_nil (by intro c h; rw [h]; rfl),
        filter_concluding_nil (by intro c h; rw [h]; rfl)]
    rw [List.filter_eq_self.mpr
        (fun c hcm => by rcases (annex_chunk_shape hcm).1 with h | h <;> rw [h] <;> rfl)]
    simp only [List.nil_append, List.append_nil]
  · intro r a hparts
    unfold annex_chunks_for
    have hcond : (!(partsDetected a).isEmpty) = true := by
      cases hq : partsDetected a with
      | nil => exact absurd hq hparts
      | cons x xs => rfl
    rw [if_pos hcond]
    simp only [annex_part_chunks, List.map_map]
    conv_rhs => rw [← partPairs_fst (partsDetected a), List.map_map]
    exact List.map_congr_left (fun pq _ => rfl)
  · intro r a hparts
    unfold annex_chunks_for
    rw [hparts]
    rw [if_neg (by decide)]
    unfold annex_whole_chunks
    dsimp only
    by_cases hc0 : annexWholeContent a = "" <;>
      by_cases hsub : (annexTitleData a (annexIdentifier a.nodeId).1
        (annexIdentifier a.nodeId).2).2 = ""
    · simp [hc0, hsub]
    · simp [hc0, hsub]
    · simp [hc0, hsub]
    · simp [hc0, hsub]

/-- An annex container subdivided into two parts. -/
def partAnnexDivW : HNode :=
  .elem "div" "anx_2" ["eli-container"]
    [pEl "oj-doc-ti" "ANNEX 2",
     pEl "oj-ti-grseq-1" "PART 1",
     pEl "oj-normal" "Item one.",
     pEl "oj-ti-grseq-1" "PART 2",
     pEl "oj-normal" "Item two."]

/-- An empty annex container. -/
def emptyAnnexDivW : HNode := .elem "div" "anx_9" ["eli-container"] []

/-- C4 witness: the amended statement instantiated at an annex with two
parts and at an empty annex. -/
theorem annex_part_exclusivity_witness :
    ((annex_chunks_for "" partAnnexDivW).map (fun c => c.number)
      = (partsDetected partAnnexDivW).map
          (fun p => some ((annexIdentifier partAnnexDivW.nodeId).2 ++ "." ++ p.number))) ∧
    ((annex_chunks_for "" emptyAnnexDivW).length =
      (if annexWholeContent emptyAnnexDivW != "" ||
          (annexTitleData emptyAnnexDivW (annexIdentifier emptyAnnexDivW.nodeId).1
            (annexIdentifier emptyAnnexDivW.nodeId).2).2 != ""
       then 1 else 0)) :=
  ⟨(annex_part_exclusivity emptyAnnexDoc).2.1 "" partAnnexDivW (by decide),
   (annex_part_exclusivity emptyAnnexDoc).2.2 "" emptyAnnexDivW (by decide)⟩

/-- C5: given an input with one chapter "CHAPTER I - GENERAL PROVISIONS"
(no sections) and one article "Article 4 - AI literacy" with a plain body
paragraph, `parse()` yields exactly one article chunk, with hierarchy path
`[doc title, chapter title, article title]` and content equal to the
cleaned body text. -/
theorem chapter_article_scenario :
    (parseChunks scenarioDoc).filter (fun c => c.section_type == SectionType.article) =
      [{ section_type := .article, number := some "4",
         title := some "Article 4 - AI literacy",
         content := clean_text "Providers and deployers of AI systems shall take measures.",
         hierarchy_path := ["REGULATION (EU) 2024/1689", "CHAPTER I - GENERAL PROVISIONS",
                            "Article 4 - AI literacy"],
         metadata := [("id", .s "art_4"), ("subtitle", .s "AI literacy")] }] := by
  decide

/-- C8: `parse()` is idempotent only across fresh instances: a second
`parse()` on the same instance appends every chunk and TOC section record a
second time, because the accumulators are not reset between calls. -/
theorem parse_twice_duplicates (doc : HNode) :
    (parse_run doc (parse_run doc initState)).chunks
      = (parse_run doc initState).chunks ++ (parse_run doc initState).chunks ∧
    (parse_run doc (parse_run doc initState)).tocSections
      = (parse_run doc initState).tocSections ++ (parse_run doc initState).tocSections := by
  simp [parse_run, initState, regAfterTitle_idem]

/-- C9: serializing a chunk's dict form to JSON, deserializing it, and
re-serializing yields the identical JSON object. -/
theorem chunk_serialization_roundtrip (c : RegulationChunk) :
    jsonToChunkDict (chunkDictToJson c.to_dict) = some c.to_dict ∧
    (jsonToChunkDict (chunkDictToJson c.to_dict)).map chunkDictToJson
      = some (chunkDictToJson c.to_dict) := by
  have h : jsonToChunkDict (chunkDictToJson c.to_dict) = some c.to_dict := by
    simp [chunkDictToJson, jsonToChunkDict, metadataToJson,
          jsonToOptStr_enc, jsonToStrList_enc, jsonToMetadata_enc]
  exact ⟨h, by rw [h]; rfl⟩

/-- C7 counterexample: `_clean_combined_text` does not rewrite a bare
numbered marker `N.\n\n` at the start of the input, contrary to the claim
that every such occurrence is rewritten to `N. ` inline. -/
theorem clean_combined_counterexample :
    clean_combined_text "1.\n\nx" = "1.\n\nx" ∧ "1.\n\nx" ≠ "1. x" := by
  constructor
  · decide
  · decide

/-- C7 (amended): `_clean_combined_text` is the list-marker repair followed
by the numbered-marker repair; the list-marker pass rewrites every
occurrence of `(x)\n\n` (x a run of lowercase letters, which subsumes
lowercase roman numerals) to `(x) ` joined with the following text, while
the numbered pass rewrites `N.\n\n` to `N. ` only when the marker is itself
preceded by a blank-line separator `\n\n`; both are pure string
transforms. -/
theorem clean_combined_spec :
    (∀ (x t : List Char), x ≠ [] → (∀ a ∈ x, isLowerAl a = true) →
      fixListMarkers ('(' :: (x ++ ')' :: '\n' :: '\n' :: t))
        = '(' :: (x ++ ')' :: ' ' :: fixListMarkers t)) ∧
    (∀ (n t : List Char), n ≠ [] → (∀ a ∈ n, isDigitCh a = true) →
      fixNumMarkers ('\n' :: '\n' :: (n ++ '.' :: '\n' :: '\n' :: t))
        = '\n' :: '\n' :: (n ++ '.' :: ' ' :: fixNumMarkers t)) ∧
    (∀ s : String, clean_combined_text s = (fixNumMarkers (fixListMarkers s.data)).asString) :=
  ⟨fixList_step, fixNum_step, fun _ => rfl⟩

/-- C7 witness: the amended rewrites evaluated at concrete markers. -/
theorem clean_combined_spec_witness :
    fixListMarkers "(a)\n\nterrorism,".data = "(a) terrorism,".data ∧
    fixNumMarkers "\n\n1.\n\nx".data = "\n\n1. x".data := by
  constructor
  · calc fixListMarkers "(a)\n\nterrorism,".data
        = fixListMarkers ('(' :: (['a'] ++ ')' :: '\n' :: '\n' :: "terrorism,".data)) := rfl
      _ = '(' :: (['a'] ++ ')' :: ' ' :: fixListMarkers "terrorism,".data) :=
          clean_combined_spec.1 ['a'] "terrorism,".data (by decide) (by decide)
      _ = "(a) terrorism,".data := by decide
  · calc fixNumMarkers "\n\n1.\n\nx".data
        = fixNumMarkers ('\n' :: '\n' :: (['1'] ++ '.' :: '\n' :: '\n' :: "x".data)) := rfl
      _ = '\n' :: '\n' :: (['1'] ++ '.' :: ' ' :: fixNumMarkers "x".data) :=
          clean_combined_spec.2.1 ['1'] "x".data (by decide) (by decide)
      _ = "\n\n1. x".data := by decide

/-- C10: after any single `parse()` call the TOC sections list contains a
`preamble` node and an `enacting_terms` node, appended unconditionally;
for a document with no recognizable content these are the only entries
(no title, concluding-formulas or annex entries). -/
theorem toc_unconditional_sections (doc : HNode) :
    ((parseToc doc).any (fun n => n.ty == "preamble")) = true ∧
    ((parseToc doc).any (fun n => n.ty == "enacting_terms")) = true ∧
    (parseToc bareDoc).map TocNode.ty = ["preamble", "enacting_terms"] := by
  refine ⟨?_, ?_, by decide⟩
  · simp [parseToc, parse_run, initState, sectionsGiven, preambleSectionOf, TocNode.ty]
  · have h := enacting_sec_ty doc (regAfterTitle doc "")
    simp [parseToc, parse_run, initState, sectionsGiven, List.any_cons, h]
